import Mathlib

/-!
# workout-server: the vendored gocbcore constants, the test utilities and the handler

A shallow embedding of

* `vendor/gopkg.in/couchbase/gocbcore.v7/constants.go` (the wire tables),
* `vendor/gopkg.in/couchbase/gocbcore.v7/agent_test.go` (`makeDistKeys`, `saslAuthFn`, and
  the key-value operations its tests exercise),
* `server/main.go` (`handler`),

with the properties the specification states about them.

Go's fixed-width unsigned types are natural numbers reduced modulo `2 ^ w`; Go's
`int` is an integer wrapped into the signed 64-bit range.
-/

namespace Gocbcore

/-! ## constants.go -/

/-- Conversion to `type commandMagic uint8`. -/
def commandMagic (n : Nat) : Nat := n % 2 ^ 8

def reqMagic : Nat := commandMagic 0x80
def resMagic : Nat := commandMagic 0x81

/-- Conversion to `type commandCode uint8`. -/
def commandCode (n : Nat) : Nat := n % 2 ^ 8

def cmdGet : Nat := commandCode 0x00
def cmdSet : Nat := commandCode 0x01
def cmdAdd : Nat := commandCode 0x02
def cmdReplace : Nat := commandCode 0x03
def cmdDelete : Nat := commandCode 0x04
def cmdIncrement : Nat := commandCode 0x05
def cmdDecrement : Nat := commandCode 0x06
def cmdAppend : Nat := commandCode 0x0e
def cmdPrepend : Nat := commandCode 0x0f
def cmdStat : Nat := commandCode 0x10
def cmdTouch : Nat := commandCode 0x1c
def cmdGAT : Nat := commandCode 0x1d
def cmdHello : Nat := commandCode 0x1f
def cmdSASLListMechs : Nat := commandCode 0x20
def cmdSASLAuth : Nat := commandCode 0x21
def cmdSASLStep : Nat := commandCode 0x22
def cmdGetAllVBSeqnos : Nat := commandCode 0x48
def cmdDcpOpenConnection : Nat := commandCode 0x50
def cmdDcpAddStream : Nat := commandCode 0x51
def cmdDcpCloseStream : Nat := commandCode 0x52
def cmdDcpStreamReq : Nat := commandCode 0x53
def cmdDcpGetFailoverLog : Nat := commandCode 0x54
def cmdDcpStreamEnd : Nat := commandCode 0x55
def cmdDcpSnapshotMarker : Nat := commandCode 0x56
def cmdDcpMutation : Nat := commandCode 0x57
def cmdDcpDeletion : Nat := commandCode 0x58
def cmdDcpExpiration : Nat := commandCode 0x59
def cmdDcpFlush : Nat := commandCode 0x5a
def cmdDcpSetVbucketState : Nat := commandCode 0x5b
def cmdDcpNoop : Nat := commandCode 0x5c
def cmdDcpBufferAck : Nat := commandCode 0x5d
def cmdDcpControl : Nat := commandCode 0x5e
def cmdGetReplica : Nat := commandCode 0x83
def cmdSelectBucket : Nat := commandCode 0x89
def cmdObserveSeqNo : Nat := commandCode 0x91
def cmdObserve : Nat := commandCode 0x92
def cmdGetLocked : Nat := commandCode 0x94
def cmdUnlockKey : Nat := commandCode 0x95
def cmdSetMeta : Nat := commandCode 0xa2
def cmdDelMeta : Nat := commandCode 0xa8
def cmdGetClusterConfig : Nat := commandCode 0xb5
def cmdGetRandom : Nat := commandCode 0xb6
def cmdSubDocGet : Nat := commandCode 0xc5
def cmdSubDocExists : Nat := commandCode 0xc6
def cmdSubDocDictAdd : Nat := commandCode 0xc7
def cmdSubDocDictSet : Nat := commandCode 0xc8
def cmdSubDocDelete : Nat := commandCode 0xc9
def cmdSubDocReplace : Nat := commandCode 0xca
def cmdSubDocArrayPushLast : Nat := commandCode 0xcb
def cmdSubDocArrayPushFirst : Nat := commandCode 0xcc
def cmdSubDocArrayInsert : Nat := commandCode 0xcd
def cmdSubDocArrayAddUnique : Nat := commandCode 0xce
def cmdSubDocCounter : Nat := commandCode 0xcf
def cmdSubDocMultiLookup : Nat := commandCode 0xd0
def cmdSubDocMultiMutation : Nat := commandCode 0xd1
def cmdSubDocGetCount : Nat := commandCode 0xd2
def cmdGetErrorMap : Nat := commandCode 0xfe

/-- Every constant of the `commandCode` block of constants.go, in source order. -/
def definedCommandCodes : List Nat :=
  [cmdGet, cmdSet, cmdAdd, cmdReplace, cmdDelete, cmdIncrement, cmdDecrement, cmdAppend,
   cmdPrepend, cmdStat, cmdTouch, cmdGAT, cmdHello, cmdSASLListMechs, cmdSASLAuth,
   cmdSASLStep, cmdGetAllVBSeqnos, cmdDcpOpenConnection, cmdDcpAddStream,
   cmdDcpCloseStream, cmdDcpStreamReq, cmdDcpGetFailoverLog, cmdDcpStreamEnd,
   cmdDcpSnapshotMarker, cmdDcpMutation, cmdDcpDeletion, cmdDcpExpiration, cmdDcpFlush,
   cmdDcpSetVbucketState, cmdDcpNoop, cmdDcpBufferAck, cmdDcpControl, cmdGetReplica,
   cmdSelectBucket, cmdObserveSeqNo, cmdObserve, cmdGetLocked, cmdUnlockKey, cmdSetMeta,
   cmdDelMeta, cmdGetClusterConfig, cmdGetRandom, cmdSubDocGet, cmdSubDocExists,
   cmdSubDocDictAdd, cmdSubDocDictSet, cmdSubDocDelete, cmdSubDocReplace,
   cmdSubDocArrayPushLast, cmdSubDocArrayPushFirst, cmdSubDocArrayInsert,
   cmdSubDocArrayAddUnique, cmdSubDocCounter, cmdSubDocMultiLookup, cmdSubDocMultiMutation,
   cmdSubDocGetCount, cmdGetErrorMap]

/-- Conversion to `type StatusCode uint16`. -/
def StatusCode (n : Nat) : Nat := n % 2 ^ 16

def StatusSuccess : Nat := StatusCode 0x00
def StatusKeyNotFound : Nat := StatusCode 0x01
def StatusKeyExists : Nat := StatusCode 0x02
def StatusTooBig : Nat := StatusCode 0x03
def StatusInvalidArgs : Nat := StatusCode 0x04
def StatusNotStored : Nat := StatusCode 0x05
def StatusBadDelta : Nat := StatusCode 0x06
def StatusNotMyVBucket : Nat := StatusCode 0x07
def StatusNoBucket : Nat := StatusCode 0x08
def StatusLocked : Nat := StatusCode 0x09
def StatusAuthStale : Nat := StatusCode 0x1f
def StatusAuthError : Nat := StatusCode 0x20
def StatusAuthContinue : Nat := StatusCode 0x21
def StatusRangeError : Nat := StatusCode 0x22
def StatusRollback : Nat := StatusCode 0x23
def StatusAccessError : Nat := StatusCode 0x24
def StatusNotInitialized : Nat := StatusCode 0x25
def StatusUnknownCommand : Nat := StatusCode 0x81
def StatusOutOfMemory : Nat := StatusCode 0x82
def StatusNotSupported : Nat := StatusCode 0x83
def StatusInternalError : Nat := StatusCode 0x84
def StatusBusy : Nat := StatusCode 0x85
def StatusTmpFail : Nat := StatusCode 0x86
def StatusSubDocPathNotFound : Nat := StatusCode 0xc0
def StatusSubDocPathMismatch : Nat := StatusCode 0xc1
def StatusSubDocPathInvalid : Nat := StatusCode 0xc2
def StatusSubDocPathTooBig : Nat := StatusCode 0xc3
def StatusSubDocDocTooDeep : Nat := StatusCode 0xc4
def StatusSubDocCantInsert : Nat := StatusCode 0xc5
def StatusSubDocNotJson : Nat := StatusCode 0xc6
def StatusSubDocBadRange : Nat := StatusCode 0xc7
def StatusSubDocBadDelta : Nat := StatusCode 0xc8
def StatusSubDocPathExists : Nat := StatusCode 0xc9
def StatusSubDocValueTooDeep : Nat := StatusCode 0xca
def StatusSubDocBadCombo : Nat := StatusCode 0xcb
def StatusSubDocBadMulti : Nat := StatusCode 0xcc
def StatusSubDocSuccessDeleted : Nat := StatusCode 0xcd
def StatusSubDocXattrInvalidFlagCombo : Nat := StatusCode 0xce
def StatusSubDocXattrInvalidKeyCombo : Nat := StatusCode 0xcf
def StatusSubDocXattrUnknownMacro : Nat := StatusCode 0xd0
def StatusSubDocXattrUnknownVAttr : Nat := StatusCode 0xd1
def StatusSubDocXattrCannotModifyVAttr : Nat := StatusCode 0xd2
def StatusSubDocMultiPathFailureDeleted : Nat := StatusCode 0xd3

/-- Every constant of the `StatusCode` block of constants.go, in source order. -/
def definedStatusCodes : List Nat :=
  [StatusSuccess, StatusKeyNotFound, StatusKeyExists, StatusTooBig, StatusInvalidArgs,
   StatusNotStored, StatusBadDelta, StatusNotMyVBucket, StatusNoBucket, StatusLocked,
   StatusAuthStale, StatusAuthError, StatusAuthContinue, StatusRangeError, StatusRollback,
   StatusAccessError, StatusNotInitialized, StatusUnknownCommand, StatusOutOfMemory,
   StatusNotSupported, StatusInternalError, StatusBusy, StatusTmpFail,
   StatusSubDocPathNotFound, StatusSubDocPathMismatch, StatusSubDocPathInvalid,
   StatusSubDocPathTooBig, StatusSubDocDocTooDeep, StatusSubDocCantInsert,
   StatusSubDocNotJson, StatusSubDocBadRange, StatusSubDocBadDelta, StatusSubDocPathExists,
   StatusSubDocValueTooDeep, StatusSubDocBadCombo, StatusSubDocBadMulti,
   StatusSubDocSuccessDeleted, StatusSubDocXattrInvalidFlagCombo,
   StatusSubDocXattrInvalidKeyCombo, StatusSubDocXattrUnknownMacro,
   StatusSubDocXattrUnknownVAttr, StatusSubDocXattrCannotModifyVAttr,
   StatusSubDocMultiPathFailureDeleted]

/-- Conversion to `type KeyState uint8`. -/
def KeyState (n : Nat) : Nat := n % 2 ^ 8

def KeyStateNotPersisted : Nat := KeyState 0x00
def KeyStatePersisted : Nat := KeyState 0x01
def KeyStateNotFound : Nat := KeyState 0x80
def KeyStateDeleted : Nat := KeyState 0x81

/-- Every constant of the `KeyState` block of constants.go, in source order. -/
def definedKeyStates : List Nat :=
  [KeyStateNotPersisted, KeyStatePersisted, KeyStateNotFound, KeyStateDeleted]

/-- Conversion to `type SubDocOpType uint8`. -/
def SubDocOpType (n : Nat) : Nat := n % 2 ^ 8

def SubDocOpGet : Nat := SubDocOpType cmdSubDocGet
def SubDocOpExists : Nat := SubDocOpType cmdSubDocExists
def SubDocOpGetCount : Nat := SubDocOpType cmdSubDocGetCount
def SubDocOpDictAdd : Nat := SubDocOpType cmdSubDocDictAdd
def SubDocOpDictSet : Nat := SubDocOpType cmdSubDocDictSet
def SubDocOpDelete : Nat := SubDocOpType cmdSubDocDelete
def SubDocOpReplace : Nat := SubDocOpType cmdSubDocReplace
def SubDocOpArrayPushLast : Nat := SubDocOpType cmdSubDocArrayPushLast
def SubDocOpArrayPushFirst : Nat := SubDocOpType cmdSubDocArrayPushFirst
def SubDocOpArrayInsert : Nat := SubDocOpType cmdSubDocArrayInsert
def SubDocOpArrayAddUnique : Nat := SubDocOpType cmdSubDocArrayAddUnique
def SubDocOpCounter : Nat := SubDocOpType cmdSubDocCounter
def SubDocOpGetDoc : Nat := SubDocOpType cmdGet
def SubDocOpSetDoc : Nat := SubDocOpType cmdSet
def SubDocOpAddDoc : Nat := SubDocOpType cmdAdd
def SubDocOpDeleteDoc : Nat := SubDocOpType cmdDelete

/-- The twelve path-level operation kinds, in the order the specification lists them. -/
def pathLevelSubDocOps : List Nat :=
  [SubDocOpGet, SubDocOpExists, SubDocOpDictAdd, SubDocOpDictSet, SubDocOpDelete,
   SubDocOpReplace, SubDocOpArrayPushLast, SubDocOpArrayPushFirst, SubDocOpArrayInsert,
   SubDocOpArrayAddUnique, SubDocOpCounter, SubDocOpGetCount]

/-- The `cmdSubDoc*` opcodes of the twelve path-level kinds, in the same order. -/
def pathLevelSubDocCmds : List Nat :=
  [cmdSubDocGet, cmdSubDocExists, cmdSubDocDictAdd, cmdSubDocDictSet, cmdSubDocDelete,
   cmdSubDocReplace, cmdSubDocArrayPushLast, cmdSubDocArrayPushFirst, cmdSubDocArrayInsert,
   cmdSubDocArrayAddUnique, cmdSubDocCounter, cmdSubDocGetCount]

/-- The four whole-document op types. -/
def wholeDocSubDocOps : List Nat :=
  [SubDocOpGetDoc, SubDocOpSetDoc, SubDocOpAddDoc, SubDocOpDeleteDoc]

/-- Conversion to `type SubdocFlag uint8`. -/
def SubdocFlag (n : Nat) : Nat := n % 2 ^ 8

def SubdocFlagNone : Nat := SubdocFlag 0x00
def SubdocFlagMkDirP : Nat := SubdocFlag 0x01
def SubdocFlagXattrPath : Nat := SubdocFlag 0x04
def SubdocFlagExpandMacros : Nat := SubdocFlag 0x10

/-- The value `f1 | f2 | ...` of a set of per-operation flags, written the way the callers
of `SubDocOp` write it (`SubdocFlagXattrPath | SubdocFlagMkDirP`); the empty set is
`SubdocFlagNone`.  The three booleans say which flags are included. -/
def subdocFlags (mkDirP xattrPath expandMacros : Bool) : Nat :=
  ((if mkDirP then SubdocFlagMkDirP else SubdocFlagNone) |||
    (if xattrPath then SubdocFlagXattrPath else SubdocFlagNone)) |||
    (if expandMacros then SubdocFlagExpandMacros else SubdocFlagNone)

/-- The test `flags & f != 0` of whether flag `f` is set in `flags`. -/
def hasSubdocFlag (flags f : Nat) : Bool := flags &&& f != 0

/-! ## agent_test.go: makeDistKeys -/

deriving instance DecidableEq for Except

/-- Go's `int` on a 64-bit platform: the value of an integer expression, wrapped into
`-2^63 .. 2^63 - 1`. -/
def wrapInt (x : Int) : Int := (x + 2 ^ 63) % 2 ^ 64 - 2 ^ 63

/-- The conversion `[]byte(s)` of a string. -/
def bytesOf (s : String) : List UInt8 := s.toUTF8.data.toList

/-- The two methods of `cfg.vbMap` that `makeDistKeys` calls.  Their bodies are not part of
the sources, so a topology supplies them: `VbucketByKey(key []byte) uint16` and
`NodeByVbucket(vbID uint16, replicaIdx uint32) (int, error)`. -/
structure vbucketMap where
  VbucketByKey : List UInt8 → Nat
  NodeByVbucket : Nat → Nat → Except String Int

/-- The part of the routing information `agent.routingInfo.Get()` that `makeDistKeys`
reads: the vbucket map and `cfg.clientMux.NumPipelines()`. -/
structure routeConfig where
  vbMap : vbucketMap
  NumPipelines : Nat

/-- The candidate key `fmt.Sprintf("DistKey_%d", i)`. -/
def distKeyName (i : Int) : String := "DistKey_" ++ toString i

/-- The primary node of a key: `NodeByVbucket(VbucketByKey([]byte(key)), 0)`. -/
def primaryNode (cfg : routeConfig) (key : String) : Except String Int :=
  cfg.vbMap.NodeByVbucket (cfg.vbMap.VbucketByKey (bytesOf key)) 0

/-- The variables of the loop of `makeDistKeys`. -/
structure distState where
  i : Int
  keys : List String
  remaining : Nat
deriving DecidableEq, Repr

/-- The read `keys[ix]` of a slice; Go panics when the index is out of range. -/
def indexKeys (keys : List String) (ix : Int) : Except String String :=
  if ix < 0 then .error "index out of range"
  else
    match keys[ix.toNat]? with
    | some k => .ok k
    | none => .error "index out of range"

/-- One pass through the body of the `for` loop of `makeDistKeys`, the post statement
`i++` included.  The condition of the `if` is evaluated left to right and stops at the
first disjunct that holds, so `keys[srvIx]` is read only after the three tests before it
have failed.  `.error` is a Go run-time panic. -/
def distKeysBody (cfg : routeConfig) (st : distState) : Except String distState :=
  let keyTmp := distKeyName st.i
  let vbID := cfg.vbMap.VbucketByKey (bytesOf keyTmp)
  let next := wrapInt (st.i + 1)
  match cfg.vbMap.NodeByVbucket vbID 0 with
  | .error _ => .ok { st with i := next }
  | .ok srvIx =>
    if srvIx < 0 then .ok { st with i := next }
    else if srvIx ≥ (st.keys.length : Int) then .ok { st with i := next }
    else
      match indexKeys st.keys srvIx with
      | .error e => .error e
      | .ok k =>
        if k ≠ "" then .ok { st with i := next }
        else
          .ok { i := next, keys := st.keys.set srvIx.toNat keyTmp,
                remaining := st.remaining - 1 }

/-- The loop `for i := 0; remaining > 0; i++ { ... }`, run for at most `fuel` passes:
`none` when the passes are used up with `remaining > 0` still true, `some (.error _)` on a
panic, `some (.ok keys)` when the loop is left and `keys` is returned. -/
def distKeysLoop (cfg : routeConfig) : Nat → distState → Option (Except String (List String))
  | fuel, st =>
    if st.remaining > 0 then
      match fuel with
      | 0 => none
      | fuel + 1 =>
        match distKeysBody cfg st with
        | .error e => some (.error e)
        | .ok st2 => distKeysLoop cfg fuel st2
    else some (.ok st.keys)

/-- The state on entry to the loop: `keys = make([]string, NumPipelines())`,
`remaining = len(keys)`, `i = 0`. -/
def distKeysInit (cfg : routeConfig) : distState :=
  let keys := List.replicate cfg.NumPipelines ""
  { i := 0, keys := keys, remaining := keys.length }

/-- The function `makeDistKeys`, run for at most `fuel` candidates. -/
def makeDistKeys (cfg : routeConfig) (fuel : Nat) : Option (Except String (List String)) :=
  distKeysLoop cfg fuel (distKeysInit cfg)

/-- A vbucket map with two vbuckets, the parity of the last byte of the key, vbucket `v`
living on node `v`. -/
def parityMap : vbucketMap where
  VbucketByKey := fun key => (key.getLastD 0).toNat % 2
  NodeByVbucket := fun vb _ => .ok (vb : Int)

/-- Two nodes, each the primary of one of the two vbuckets of `parityMap`. -/
def twoNodes : routeConfig := { vbMap := parityMap, NumPipelines := 2 }

/-- A vbucket map whose single vbucket lives on node 0. -/
def singleMap : vbucketMap where
  VbucketByKey := fun _ => 0
  NodeByVbucket := fun _ _ => .ok 0

/-- Two nodes of which the second is the primary of no vbucket. -/
def idleNode : routeConfig := { vbMap := singleMap, NumPipelines := 2 }

/-- The candidate of the current pass is accepted into slot `n`: its routing succeeds with
node `n` and slot `n` exists and is still empty. -/
def accepts (cfg : routeConfig) (st : distState) (n : Nat) : Prop :=
  primaryNode cfg (distKeyName st.i) = .ok (n : Int) ∧ st.keys[n]? = some ""

/-- The values of a Go `int`. -/
def inInt (i : Int) : Prop := -2 ^ 63 ≤ i ∧ i < 2 ^ 63

/-- The invariant of the loop of `makeDistKeys`: the slice keeps its length, the counter is
an `int`, every slot is empty or holds a candidate routed to that slot, and `remaining`
counts the empty slots. -/
structure distInv (cfg : routeConfig) (st : distState) : Prop where
  len : st.keys.length = cfg.NumPipelines
  range : inInt st.i
  slots : ∀ (n : Nat) (k : String), st.keys[n]? = some k → k = "" ∨
    ∃ i : Int, inInt i ∧ k = distKeyName i ∧ primaryNode cfg k = .ok (n : Int)
  rem : st.remaining = st.keys.count ""

/-- What holds of the slice `makeDistKeys` returns: one candidate per node, entry `n`
routed to node `n`. -/
def distKeysPost (cfg : routeConfig) (keys : List String) : Prop :=
  keys.length = cfg.NumPipelines ∧
  ∀ n, n < cfg.NumPipelines → ∃ i : Int, inInt i ∧ keys[n]? = some (distKeyName i) ∧
    primaryNode cfg (distKeyName i) = .ok (n : Int)

/-- Every node is the primary node of some candidate key. -/
def covered (cfg : routeConfig) : Prop :=
  ∀ n, n < cfg.NumPipelines →
    ∃ i : Int, inInt i ∧ primaryNode cfg (distKeyName i) = .ok (n : Int)

/-- A vbucket map with one vbucket that has no node: `NodeByVbucket` returns an error for
replica 0. -/
def vacantMap : vbucketMap where
  VbucketByKey := fun _ => 0
  NodeByVbucket := fun _ _ => .error "invalid replica"

/-- One node and a vbucket map whose only vbucket has no node. -/
def vacantNode : routeConfig := { vbMap := vacantMap, NumPipelines := 1 }

/-- The order invariant of the loop of `makeDistKeys` on entry to pass number `p` (the
passes are numbered from 0): the counter has been incremented `p` times; an empty slot `n`
means that no earlier candidate was routed to `n`; a filled slot `n` holds the first
candidate routed to `n`. -/
structure distOrd (cfg : routeConfig) (st : distState) (p : Nat) : Prop where
  counter : st.i = wrapInt p
  slots : ∀ (n : Nat) (k : String), st.keys[n]? = some k →
    (k = "" ∧ ∀ q, q < p → primaryNode cfg (distKeyName (wrapInt q)) ≠ .ok (n : Int)) ∨
    (∃ q, q < p ∧ k = distKeyName (wrapInt q) ∧ primaryNode cfg k = .ok (n : Int) ∧
      ∀ r, r < q → primaryNode cfg (distKeyName (wrapInt r)) ≠ .ok (n : Int))

/-- The variables of the loop of `makeDistKeys` after `k` passes (or on leaving the loop,
if it is left earlier). -/
def distKeysAfter (cfg : routeConfig) : Nat → Except String distState
  | 0 => .ok (distKeysInit cfg)
  | k + 1 =>
    match distKeysAfter cfg k with
    | .error e => .error e
    | .ok st => if st.remaining > 0 then distKeysBody cfg st else .ok st

/-- Entry `n` of the slice is the first candidate, in the order of the passes, routed to
node `n`. -/
def distKeysFirst (cfg : routeConfig) (keys : List String) : Prop :=
  ∀ n, n < cfg.NumPipelines → ∃ p : Nat, keys[n]? = some (distKeyName (wrapInt p)) ∧
    primaryNode cfg (distKeyName (wrapInt p)) = .ok (n : Int) ∧
    ∀ q, q < p → primaryNode cfg (distKeyName (wrapInt q)) ≠ .ok (n : Int)

/-! ## agent_test.go: saslAuthFn -/

/-- The slice `make([]byte, n)`: `n` zero bytes. -/
def makeBytes (n : Nat) : List UInt8 := List.replicate n 0

/-- The builtin `copy(dst[off:], src)` for `off ≤ len(dst)`: the first
`min(len(dst) - off, len(src))` bytes of `src` overwrite `dst` from position `off`. -/
def copyInto (dst : List UInt8) (off : Nat) (src : List UInt8) : List UInt8 :=
  let n := min (dst.length - off) src.length
  dst.take off ++ src.take n ++ dst.drop (off + n)

/-- The method of the interface `AuthClient` that `saslAuthFn` calls,
`ExecSaslAuth(k, v []byte, deadline time.Time) ([]byte, error)`; its implementations are
not part of the sources.  A `nil` error is `none`, and a time is a number. -/
structure AuthClient where
  ExecSaslAuth : List UInt8 → List UInt8 → Nat → List UInt8 × Option String

/-- The bytes `authData` that the closure returned by `saslAuthFn` builds.  A Go string is
a sequence of bytes, and `[]byte(bucket)` is that sequence. -/
def saslAuthData (bucket password : List UInt8) : List UInt8 :=
  let userBuf := bucket
  let passBuf := password
  let authData := makeBytes (1 + userBuf.length + 1 + passBuf.length)
  let authData := authData.set 0 0
  let authData := copyInto authData 1 userBuf
  let authData := authData.set (1 + userBuf.length) 0
  let authData := copyInto authData (1 + userBuf.length + 1) passBuf
  authData

/-- The function `saslAuthFn`: the closure it returns, applied to `srv` and `deadline`. -/
def saslAuthFn (bucket password : List UInt8) (srv : AuthClient) (deadline : Nat) :
    Option String :=
  (srv.ExecSaslAuth (bytesOf "PLAIN") (saslAuthData bucket password) deadline).2

/-! ## agent_test.go: the key-value operations the tests call

`Agent.Set`, `Agent.Get`, `Agent.Remove`, `Agent.Increment`, `Agent.Decrement`,
`Agent.Append` and `Agent.Prepend` are called by the tests with the argument lists used
below; their bodies, and the server they talk to, are not part of the sources.  The
definitions follow sections 3, 4.3 and 8 of the specification.  The completion callback of
an operation becomes its result, and the mutation token is left out. -/

/-- Conversion to `uint64`, the type of a counter value, of `delta` and of `initial`. -/
def uint64 (n : Nat) : Nat := n % 2 ^ 64

/-- Modelled from the spec: the stored value of an item, whose representation on the
server is missing from the sources.  It is either raw bytes or, after a counter operation
created it, "a non-negative 64-bit counter" (section 4.3). -/
inductive Value where
  | bytes (b : List UInt8)
  | counter (n : Nat)
deriving DecidableEq, Repr

/-- Modelled from the spec: a stored item, missing from the sources: its value, its flags,
its CAS ("a 64-bit opaque version tag attached to a stored item", section 3) and the time
at which it expires, if any. -/
structure Item where
  value : Value
  flags : Nat
  cas : Nat
  expiresAt : Option Nat
deriving DecidableEq, Repr

/-- Modelled from the spec: the bucket the agent talks to, missing from the sources: the
items by key, the number of CAS values handed out so far, and the clock. -/
structure Bucket where
  items : List UInt8 → Option Item
  casSeq : Nat
  now : Nat

/-- A bucket without items. -/
def emptyBucket : Bucket := { items := fun _ => none, casSeq := 0, now := 0 }

/-- Modelled from the spec: expiry of an item, missing from the sources: "reads after
expiry fail NotFound" (section 4.3). -/
def Item.expired (it : Item) (now : Nat) : Bool :=
  match it.expiresAt with
  | none => false
  | some t => decide (t ≤ now)

/-- Modelled from the spec: the item currently stored under a key, missing from the
sources; an expired item counts as absent. -/
def Bucket.lookup (b : Bucket) (key : List UInt8) : Option Item :=
  match b.items key with
  | none => none
  | some it => if it.expired b.now then none else some it

/-- Modelled from the spec: the CAS of the next mutation, missing from the sources:
"every successful mutation returns a new CAS", a 64-bit value, and "zero is reserved"
(section 3), so the values are taken in turn from `1 .. 2^64 - 1`. -/
def Bucket.freshCas (b : Bucket) : Nat := b.casSeq % (2 ^ 64 - 1) + 1

/-- Modelled from the spec: the expiry time an `expiry` argument asks for, missing from the
sources; an expiry of 0 means that the item does not expire. -/
def Bucket.deadline (b : Bucket) (expiry : Nat) : Option Nat :=
  if expiry = 0 then none else some (b.now + expiry)

/-- Modelled from the spec: a successful mutation, missing from the sources: the item is
stored under the key with a new CAS, which is returned (section 4.3, side effects). -/
def Bucket.store (b : Bucket) (key : List UInt8) (value : Value) (flags : Nat)
    (expiresAt : Option Nat) : Nat × Bucket :=
  let cas := b.freshCas
  (cas, { b with
    items := fun k =>
      if k = key then
        some { value := value, flags := flags, cas := cas, expiresAt := expiresAt }
      else b.items k,
    casSeq := b.casSeq + 1 })

/-- Modelled from the spec: the passing of time (`TimeTravel` in the tests), missing from
the sources. -/
def Bucket.advance (b : Bucket) (dt : Nat) : Bucket := { b with now := b.now + dt }

/-- Modelled from the spec: `Agent.Get`, missing from the sources:
"`get(key) -> value, flags, cas` - fails NotFound if absent". -/
def Agent.Get (b : Bucket) (key : List UInt8) : Except Nat (Value × Nat × Nat) :=
  match b.lookup key with
  | none => .error StatusKeyNotFound
  | some it => .ok (it.value, it.flags, it.cas)

/-- Modelled from the spec: `Agent.Set`, missing from the sources, with the arguments of
its calls in the tests (key, value, flags, expiry): the value is stored whether or not
the key exists, and the new CAS is returned. -/
def Agent.Set (b : Bucket) (key value : List UInt8) (flags expiry : Nat) :
    Except Nat (Nat × Bucket) :=
  .ok (b.store key (.bytes value) flags (b.deadline expiry))

/-- Modelled from the spec: `Agent.Remove`, missing from the sources:
"`remove(key, casPrecondition)`"; a zero CAS means no CAS check, and a non-zero CAS that
differs from the stored one is rejected. -/
def Agent.Remove (b : Bucket) (key : List UInt8) (cas : Nat) : Except Nat (Nat × Bucket) :=
  match b.lookup key with
  | none => .error StatusKeyNotFound
  | some it =>
    if cas ≠ 0 ∧ it.cas ≠ cas then .error StatusKeyExists
    else
      .ok (b.freshCas,
        { b with
          items := fun k => if k = key then none else b.items k,
          casSeq := b.casSeq + 1 })

/-- Modelled from the spec: the common part of `Agent.Increment` and `Agent.Decrement`,
missing from the sources: "if key absent, seeds with `initialValue` and succeeds rather
than failing"; on an existing counter holding `v` the new value is `f v`.  The
specification does not say what a counter operation does to raw bytes; it is rejected
here. -/
def Bucket.counterOp (b : Bucket) (f : Nat → Nat) (key : List UInt8) (initial expiry : Nat) :
    Except Nat ((Nat × Nat) × Bucket) :=
  match b.lookup key with
  | none =>
    let r := b.store key (.counter (uint64 initial)) 0 (b.deadline expiry)
    .ok ((uint64 initial, r.1), r.2)
  | some it =>
    match it.value with
    | .counter v =>
      let r := b.store key (.counter (f v)) it.flags it.expiresAt
      .ok ((f v, r.1), r.2)
    | .bytes _ => .error StatusBadDelta

/-- Modelled from the spec: `Agent.Increment`, missing from the sources:
"`increment(key, delta, initialValue, expiry) -> newValue, cas`", the sum being taken in
`uint64`. -/
def Agent.Increment (b : Bucket) (key : List UInt8) (delta initial expiry : Nat) :
    Except Nat ((Nat × Nat) × Bucket) :=
  b.counterOp (fun v => uint64 (v + uint64 delta)) key initial expiry

/-- Modelled from the spec: `Agent.Decrement`, missing from the sources: the counter is
"saturating at zero on decrement below zero (never negative)". -/
def Agent.Decrement (b : Bucket) (key : List UInt8) (delta initial expiry : Nat) :
    Except Nat ((Nat × Nat) × Bucket) :=
  b.counterOp (fun v => if v < uint64 delta then 0 else v - uint64 delta) key initial expiry

/-- Modelled from the spec: the common part of `Agent.Append` and `Agent.Prepend`, missing
from the sources: "raw byte concatenation; no validation of structured content".  The key
has to exist; the specification does not say what adjoining does to a counter, and it is
rejected here. -/
def Bucket.adjoin (b : Bucket) (f : List UInt8 → List UInt8) (key : List UInt8) :
    Except Nat (Nat × Bucket) :=
  match b.lookup key with
  | none => .error StatusNotStored
  | some it =>
    match it.value with
    | .bytes old => .ok (b.store key (.bytes (f old)) it.flags it.expiresAt)
    | .counter _ => .error StatusNotStored

/-- Modelled from the spec: `Agent.Append`, missing from the sources: the bytes are put
after the stored value. -/
def Agent.Append (b : Bucket) (key value : List UInt8) : Except Nat (Nat × Bucket) :=
  b.adjoin (fun old => old ++ value) key

/-- Modelled from the spec: `Agent.Prepend`, missing from the sources: the bytes are put
before the stored value. -/
def Agent.Prepend (b : Bucket) (key value : List UInt8) : Except Nat (Nat × Bucket) :=
  b.adjoin (fun old => value ++ old) key

/-- The bucket after a call whose error the test ignores (`s.Continue()` in the
callback): the new bucket on success, the old one on failure. -/
def bucketAfter (b : Bucket) (r : Except Nat (Nat × Bucket)) : Bucket :=
  match r with
  | .ok (_, b2) => b2
  | .error _ => b

/-- The calls of `TestBasicCounters` on a key, with its deltas and initial values: `Remove`
(error ignored), `Increment(5, 11)`, `Increment(5, 22)`, `Decrement(3, 65)`.  The result
lists the value and the CAS each counter callback receives. -/
def basicCountersRun (b : Bucket) (key : List UInt8) : Except Nat (List (Nat × Nat)) := do
  let b0 := bucketAfter b (Agent.Remove b key 0)
  let (r1, b1) ← Agent.Increment b0 key 5 11 0
  let (r2, b2) ← Agent.Increment b1 key 5 22 0
  let (r3, _) ← Agent.Decrement b2 key 3 65 0
  pure [r1, r2, r3]

/-- The calls of `TestBasicAdjoins` on a key: `Set(first)` (error ignored),
`Append(appended)`, `Prepend(prepended)`, `Get`.  The result lists the CAS of the append
and of the prepend, then the value and the CAS the final `Get` receives. -/
def basicAdjoinsRun (b : Bucket) (key first appended prepended : List UInt8) :
    Except Nat (Nat × Nat × Value × Nat) := do
  let b0 := bucketAfter b (Agent.Set b key first 0 0)
  let (c1, b1) ← Agent.Append b0 key appended
  let (c2, b2) ← Agent.Prepend b1 key prepended
  let (v, _, c3) ← Agent.Get b2 key
  pure (c1, c2, v, c3)

/-- A counter seeded with `start` on an absent key by `Increment(0, start)` and then
decremented by `delta`: the value the decrement callback receives. -/
def seededDecrement (b : Bucket) (key : List UInt8) (start delta : Nat) : Except Nat Nat := do
  let (_, b1) ← Agent.Increment b key 0 start 0
  let (r, _) ← Agent.Decrement b1 key delta 0 0
  pure r.1

end Gocbcore

namespace Server

/-! ## server/main.go: handler -/

/-- A Go `map[string]V`: `none` is the nil map, and a non-nil map is a finite set of
entries with distinct keys. -/
abbrev GoMap (V : Type) := Option (AList (fun _ : String => V))

/-- The struct `Document`; a Go `int` is an integer in the `int` range. -/
structure Document where
  InsertionDate : String
  Date : String
  Exercises : GoMap (GoMap Int)

/-- The entries a `for k, v := range m` loop goes through, in some order; a nil map has
none. -/
def rangeOf {V : Type} (m : GoMap V) : List (Sigma (fun _ : String => V)) :=
  match m with
  | none => []
  | some a => a.entries

/-- The read `ex[exName]` of a `map[string]map[string]int`: the nil map when `ex` is nil
or has no such key. -/
def exerciseOf (ex : GoMap (GoMap Int)) (exName : String) : GoMap Int :=
  match ex with
  | none => none
  | some m => (m.lookup exName).join

/-- The read `exer[weight]` of a `map[string]int`: 0 when `exer` is nil or has no such
key. -/
def repsOf (exer : GoMap Int) (weight : String) : Int :=
  match exer with
  | none => 0
  | some m => (m.lookup weight).getD 0

/-- The body of the inner loop of `handler` on the (non-nil) map
`thing.Exercises[exName]`: the entry is set to `reps` if it reads 0, and `reps` is added
to it otherwise. -/
def addReps (inner : AList (fun _ : String => Int)) (weight : String) (reps : Int) :
    AList (fun _ : String => Int) :=
  if repsOf (some inner) weight = 0 then inner.insert weight reps
  else inner.insert weight (Gocbcore.wrapInt (repsOf (some inner) weight + reps))

/-- The body of the outer loop of `handler` on `thing.Exercises`.  An assignment to an
entry of a nil map is a run-time panic, `.error`. -/
def mergeExercise (ex : GoMap (GoMap Int)) (exName : String) (exer : GoMap Int) :
    Except String (GoMap (GoMap Int)) :=
  match exerciseOf ex exName with
  | none =>
    match ex with
    | none => .error "assignment to entry in nil map"
    | some m => .ok (some (m.insert exName exer))
  | some inner =>
    let inner := (rangeOf exer).foldl (fun acc e => addReps acc e.1 e.2) inner
    .ok (ex.map (fun m => m.insert exName (some inner)))

/-- The loop `for exName, exer := range docuBody.Exercises` of `handler`. -/
def mergeExercises (ex incoming : GoMap (GoMap Int)) : Except String (GoMap (GoMap Int)) :=
  (rangeOf incoming).foldlM (fun acc e => mergeExercise acc e.1 e.2) ex

/-- The call `bucket.Get(key, &thing)` of the gocb bucket, which is not part of the
sources: the document decoded into `thing`, or an error. -/
structure Bucket where
  Get : String → Except String Document

/-- The function `handler`, from the point where the request body has been decoded into
`docuBody` (a body that cannot be read or decoded ends the process before that), with
`today` the date `strings.Split(time.Now().String(), " ")[0]`.  The result lists the
calls `bucket.Upsert(key, value, 0)` it makes; their errors are only logged.  `.error` is
a run-time panic. -/
def handler (bucket : Bucket) (today : String) (body : Document) :
    Except String (List (String × Document)) :=
  let docuBody : Document := { body with InsertionDate := today }
  match bucket.Get docuBody.InsertionDate with
  | .error _ => .ok [(docuBody.InsertionDate, docuBody)]
  | .ok thing =>
    match mergeExercises thing.Exercises docuBody.Exercises with
    | .error e => .error e
    | .ok ex => .ok [(docuBody.InsertionDate, { thing with Exercises := ex })]

/-- The read `ex[exName][weight]`. -/
def reps (ex : GoMap (GoMap Int)) (exName weight : String) : Int :=
  repsOf (exerciseOf ex exName) weight

/-- Whether the exercise `exName` has an entry for `weight`. -/
def hasEntry (ex : GoMap (GoMap Int)) (exName weight : String) : Bool :=
  match exerciseOf ex exName with
  | none => false
  | some inner => (inner.lookup weight).isSome

/-- What `thing.Exercises[exName]` is after the body of the outer loop. -/
def mergeInner (old exer : GoMap Int) : GoMap Int :=
  match old with
  | none => exer
  | some inner => some ((rangeOf exer).foldl (fun acc e => addReps acc e.1 e.2) inner)

/-- Every number of repetitions is a Go `int`. -/
def intValued (ex : GoMap (GoMap Int)) : Prop :=
  ∀ e w, Gocbcore.inInt (reps ex e w)

/-- The test that every number of repetitions is a Go `int`. -/
def intValuedCheck (ex : GoMap (GoMap Int)) : Bool :=
  (rangeOf ex).all fun e =>
    (rangeOf e.2).all fun r => decide (-2 ^ 63 ≤ r.2) && decide (r.2 < 2 ^ 63)

/-- The documents of the bucket, by key. -/
abbrev Store := String → Option Document

/-- A successful `Upsert`. -/
def Store.upsert (s : Store) (key : String) (doc : Document) : Store :=
  fun k => if k = key then some doc else s k

/-- The bucket after the given upserts, in order. -/
def applyUpserts (s : Store) (ups : List (String × Document)) : Store :=
  ups.foldl (fun s u => s.upsert u.1 u.2) s

/-- Every document is stored under the key equal to its `InsertionDate`. -/
def keyedByDate (s : Store) : Prop :=
  ∀ k d, s k = some d → d.InsertionDate = k

/-- The map with the given entries. -/
def goMapOf {V : Type} (l : List (String × V)) : AList (fun _ : String => V) :=
  l.foldr (fun e m => m.insert e.1 e.2) ∅

/-- A stored document with two weights of one exercise and an exercise whose inner map
is nil. -/
def benchDoc : Document :=
  { InsertionDate := "2018-01-01", Date := "monday",
    Exercises := some (goMapOf [("bench", some (goMapOf [("135", 10), ("185", 5)])),
                                ("squat", none)]) }

/-- An incoming document. -/
def newDoc : Document :=
  { InsertionDate := "", Date := "tuesday",
    Exercises := some (goMapOf [("bench", some (goMapOf [("135", 2), ("225", 1)])),
                                ("squat", some (goMapOf [("315", 3)]))]) }

/-- A bucket that holds `benchDoc` under its date. -/
def storedBucket : Bucket := { Get := fun k => if k = "2018-01-01" then .ok benchDoc else .error "not found" }

/-- A stored document whose exercise map is nil. -/
def nilDoc : Document :=
  { InsertionDate := "2018-01-01", Date := "monday", Exercises := none }

/-- A bucket that holds `nilDoc` under its date. -/
def nilBucket : Bucket :=
  { Get := fun k => if k = "2018-01-01" then .ok nilDoc else .error "not found" }

/-- A bucket in which every lookup fails. -/
def missBucket : Bucket := { Get := fun _ => .error "not found" }

/-- The documents of `storedBucket`. -/
def storedStore : Store := fun k => if k = "2018-01-01" then some benchDoc else none

end Server

namespace Gocbcore

/-! ## The wire tables -/

/-- C1: the seventeen opcodes the specification lists have exactly the values of its wire
table. -/
theorem opcode_wire_table :
    cmdGet = 0x00 ∧ cmdSet = 0x01 ∧ cmdAdd = 0x02 ∧ cmdReplace = 0x03 ∧ cmdDelete = 0x04 ∧
    cmdIncrement = 0x05 ∧ cmdDecrement = 0x06 ∧ cmdAppend = 0x0e ∧ cmdPrepend = 0x0f ∧
    cmdTouch = 0x1c ∧ cmdGAT = 0x1d ∧ cmdObserve = 0x92 ∧ cmdObserveSeqNo = 0x91 ∧
    cmdSubDocMultiLookup = 0xd0 ∧ cmdSubDocMultiMutation = 0xd1 ∧ cmdGetRandom = 0xb6 ∧
    cmdGetErrorMap = 0xfe := by
  decide

/-- C2: `StatusSuccess` is 0x00, the sub-document status
`StatusSubDocMultiPathFailureDeleted` is 0xd3, it is a defined status code, and every
defined status code lies in 0x00..0xd3 (so 0xd3 is the highest). -/
theorem status_code_range :
    StatusSuccess = 0x00 ∧ StatusSubDocMultiPathFailureDeleted = 0xd3 ∧
    StatusSubDocMultiPathFailureDeleted ∈ definedStatusCodes ∧
    (∀ c ∈ definedStatusCodes, 0x00 ≤ c ∧ c ≤ 0xd3) := by
  decide

/-- C3: the request magic is 0x80, the response magic is 0x81, and the two differ. -/
theorem magic_values : reqMagic = 0x80 ∧ resMagic = 0x81 ∧ reqMagic ≠ resMagic := by
  decide

/-- C9: the twelve path-level op types equal their `cmdSubDoc*` opcodes and are pairwise
distinct, none is the multi-lookup or the multi-mutation opcode, none is a whole-document
op type, and the sixteen `SubDocOpType` values are pairwise distinct. -/
theorem subdoc_op_types_distinct :
    pathLevelSubDocOps = pathLevelSubDocCmds ∧
    pathLevelSubDocOps.length = 12 ∧ pathLevelSubDocOps.Nodup ∧
    (∀ t ∈ pathLevelSubDocOps, t ≠ cmdSubDocMultiLookup ∧ t ≠ cmdSubDocMultiMutation) ∧
    cmdSubDocMultiLookup = 0xd0 ∧ cmdSubDocMultiMutation = 0xd1 ∧
    (∀ t ∈ pathLevelSubDocOps, t ∉ wholeDocSubDocOps) ∧
    (pathLevelSubDocOps ++ wholeDocSubDocOps).length = 16 ∧
    (pathLevelSubDocOps ++ wholeDocSubDocOps).Nodup := by
  decide

/-- C10: `SubdocFlagNone` is 0; the three flags are non-zero and share no bit; the OR of a
set of flags determines the set; a flag is set in the OR exactly when it was included; and
`SubdocFlagXattrPath | SubdocFlagMkDirP` is 0x05, with MkDirP and XattrPath set and
ExpandMacros clear. -/
theorem subdoc_flags_independent :
    SubdocFlagNone = 0 ∧
    SubdocFlagMkDirP ≠ 0 ∧ SubdocFlagXattrPath ≠ 0 ∧ SubdocFlagExpandMacros ≠ 0 ∧
    SubdocFlagMkDirP &&& SubdocFlagXattrPath = 0 ∧
    SubdocFlagMkDirP &&& SubdocFlagExpandMacros = 0 ∧
    SubdocFlagXattrPath &&& SubdocFlagExpandMacros = 0 ∧
    (∀ m x e m2 x2 e2 : Bool,
      subdocFlags m x e = subdocFlags m2 x2 e2 ↔ (m = m2 ∧ x = x2 ∧ e = e2)) ∧
    (∀ m x e : Bool,
      hasSubdocFlag (subdocFlags m x e) SubdocFlagMkDirP = m ∧
      hasSubdocFlag (subdocFlags m x e) SubdocFlagXattrPath = x ∧
      hasSubdocFlag (subdocFlags m x e) SubdocFlagExpandMacros = e) ∧
    SubdocFlagXattrPath ||| SubdocFlagMkDirP = 0x05 ∧
    subdocFlags true true false = 0x05 ∧
    hasSubdocFlag 0x05 SubdocFlagMkDirP = true ∧
    hasSubdocFlag 0x05 SubdocFlagXattrPath = true ∧
    hasSubdocFlag 0x05 SubdocFlagExpandMacros = false := by
  decide

/-- C11: `KeyState` has exactly four constants, not persisted (0x00), persisted (0x01),
not found (0x80) and deleted (0x81), with pairwise distinct codes. -/
theorem key_states_distinct :
    KeyStateNotPersisted = 0x00 ∧ KeyStatePersisted = 0x01 ∧ KeyStateNotFound = 0x80 ∧
    KeyStateDeleted = 0x81 ∧ definedKeyStates.length = 4 ∧ definedKeyStates.Nodup := by
  decide

set_option maxRecDepth 100000 in
/-- C12: the defined `StatusCode` constants are pairwise distinct, so a numeric code
belongs to at most one entry of the table: two positions of the table with the same code
are the same position. -/
theorem status_codes_distinct :
    definedStatusCodes.Nodup ∧
    (∀ i j : Fin definedStatusCodes.length,
      definedStatusCodes.get i = definedStatusCodes.get j → i = j) := by
  have h : definedStatusCodes.Nodup := by decide
  exact ⟨h, fun i j hij => List.nodup_iff_injective_get.1 h hij⟩

set_option maxRecDepth 100000 in
/-- C14: the 57 defined `commandCode` constants, `cmdGet` through `cmdGetErrorMap`, are
pairwise distinct. -/
theorem command_codes_distinct :
    definedCommandCodes.length = 57 ∧ definedCommandCodes.head? = some cmdGet ∧
    definedCommandCodes.getLast? = some cmdGetErrorMap ∧ definedCommandCodes.Nodup := by
  decide

/-! ## makeDistKeys -/

/-- A wrapped value is an `int`. -/
theorem wrapInt_range (x : Int) : -2 ^ 63 ≤ wrapInt x ∧ wrapInt x < 2 ^ 63 := by
  unfold wrapInt; omega

/-- Wrapping leaves an `int` unchanged. -/
theorem wrapInt_of_range (x : Int) (h : -2 ^ 63 ≤ x ∧ x < 2 ^ 63) : wrapInt x = x := by
  unfold wrapInt; omega

/-- A candidate key is never the empty string. -/
theorem distKeyName_ne_empty (i : Int) : distKeyName i ≠ "" := by
  intro h
  have := congrArg String.length h
  simp [distKeyName, String.length_append] at this
  exact absurd this.1 (by decide)

/-- Filling an empty slot with a non-empty key removes one empty slot. -/
theorem count_set_empty (l : List String) (n : Nat) (k : String) (hk : k ≠ "")
    (hn : l[n]? = some "") : (l.set n k).count "" + 1 = l.count "" := by
  induction l generalizing n with
  | nil => simp at hn
  | cons a t ih =>
    cases n with
    | zero =>
      simp at hn
      subst hn
      simp [List.count_cons, hk]
    | succ m =>
      simp at hn
      have := ih m hn
      simp [List.count_cons]
      omega

/-- An accepted candidate is written to its slot and `remaining` is decremented. -/
theorem distKeysBody_accept (cfg : routeConfig) (st : distState) (n : Nat)
    (h : accepts cfg st n) :
    distKeysBody cfg st = .ok { i := wrapInt (st.i + 1),
                                keys := st.keys.set n (distKeyName st.i),
                                remaining := st.remaining - 1 } := by
  obtain ⟨hp, hk⟩ := h
  have hlt : n < st.keys.length := by
    rcases Nat.lt_or_ge n st.keys.length with h | h
    · exact h
    · rw [List.getElem?_eq_none h] at hk; cases hk
  unfold primaryNode at hp
  have h1 : ¬ ((n : Int) < 0) := by omega
  have h2 : ¬ ((n : Int) ≥ (st.keys.length : Int)) := by omega
  simp only [distKeysBody, hp, indexKeys, h1, h2, if_false, Int.toNat_ofNat, hk]
  simp

/-- A candidate that no slot accepts changes nothing but the counter. -/
theorem distKeysBody_skip (cfg : routeConfig) (st : distState)
    (h : ∀ n, ¬ accepts cfg st n) :
    distKeysBody cfg st = .ok { st with i := wrapInt (st.i + 1) } := by
  unfold distKeysBody
  simp only
  cases hp : cfg.vbMap.NodeByVbucket (cfg.vbMap.VbucketByKey (bytesOf (distKeyName st.i))) 0 with
  | error e => rfl
  | ok srvIx =>
    simp only
    by_cases h1 : srvIx < 0
    · simp [h1]
    · by_cases h2 : srvIx ≥ (st.keys.length : Int)
      · simp [h1, h2]
      · have hlt : srvIx.toNat < st.keys.length := by omega
        have hcast : ((srvIx.toNat : Nat) : Int) = srvIx := by omega
        simp only [h1, h2, if_false, indexKeys, List.getElem?_eq_getElem hlt]
        by_cases hk : st.keys[srvIx.toNat] = ""
        · exfalso
          apply h srvIx.toNat
          refine ⟨?_, ?_⟩
          · unfold primaryNode; rw [hp, hcast]
          · rw [List.getElem?_eq_getElem hlt, hk]
        · simp [hk]

/-- The invariant holds on entry to the loop. -/
theorem distInv_init (cfg : routeConfig) : distInv cfg (distKeysInit cfg) := by
  refine ⟨?_, ?_, ?_, ?_⟩
  · simp [distKeysInit]
  · simp [distKeysInit, inInt]
  · intro n k hk
    left
    simp only [distKeysInit, List.getElem?_replicate] at hk
    split at hk
    · exact (Option.some.inj hk).symm
    · cases hk
  · simp [distKeysInit]

/-- A skipped candidate keeps the invariant. -/
theorem distInv_skip (cfg : routeConfig) (st : distState) (h : distInv cfg st) :
    distInv cfg { st with i := wrapInt (st.i + 1) } :=
  ⟨h.len, wrapInt_range _, h.slots, h.rem⟩

/-- An accepted candidate keeps the invariant. -/
theorem distInv_accept (cfg : routeConfig) (st : distState) (n : Nat)
    (h : distInv cfg st) (ha : accepts cfg st n) :
    distInv cfg { i := wrapInt (st.i + 1), keys := st.keys.set n (distKeyName st.i),
                  remaining := st.remaining - 1 } := by
  obtain ⟨hp, hk⟩ := ha
  refine ⟨?_, wrapInt_range _, ?_, ?_⟩
  · simpa using h.len
  · intro m k hm
    simp only [List.getElem?_set] at hm
    by_cases hnm : n = m
    · subst hnm
      simp only [if_true] at hm
      split at hm
      · right
        have hk2 : k = distKeyName st.i := (Option.some.inj hm).symm
        exact ⟨st.i, h.range, hk2, by rw [hk2]; exact hp⟩
      · cases hm
    · simp only [hnm, if_false] at hm
      exact h.slots m k hm
  · have := count_set_empty st.keys n (distKeyName st.i) (distKeyName_ne_empty _) hk
    have hr := h.rem
    simp only
    omega

/-- With `remaining = 0` the loop is left at once. -/
theorem distKeysLoop_zero_rem (cfg : routeConfig) (fuel : Nat) (st : distState)
    (h : st.remaining = 0) : distKeysLoop cfg fuel st = some (.ok st.keys) := by
  unfold distKeysLoop
  simp [h]

/-- One pass of the loop. -/
theorem distKeysLoop_succ (cfg : routeConfig) (fuel : Nat) (st st2 : distState)
    (h : 0 < st.remaining) (hb : distKeysBody cfg st = .ok st2) :
    distKeysLoop cfg (fuel + 1) st = distKeysLoop cfg fuel st2 := by
  rw [distKeysLoop]
  simp [h, hb]

/-- Without fuel and with `remaining > 0` the run is cut off. -/
theorem distKeysLoop_out (cfg : routeConfig) (st : distState)
    (h : 0 < st.remaining) : distKeysLoop cfg 0 st = none := by
  rw [distKeysLoop]
  simp [h]

/-- The body never panics and keeps the invariant. -/
theorem distKeysBody_inv (cfg : routeConfig) (st : distState) (h : distInv cfg st) :
    ∃ st2, distKeysBody cfg st = .ok st2 ∧ distInv cfg st2 := by
  by_cases ha : ∃ n, accepts cfg st n
  · obtain ⟨n, hn⟩ := ha
    exact ⟨_, distKeysBody_accept cfg st n hn, distInv_accept cfg st n h hn⟩
  · have ha2 : ∀ n, ¬ accepts cfg st n := fun n hn => ha ⟨n, hn⟩
    exact ⟨_, distKeysBody_skip cfg st ha2, distInv_skip cfg st h⟩

/-- The invariant with `remaining = 0` gives the property of the result. -/
theorem distInv_post (cfg : routeConfig) (st : distState) (h : distInv cfg st)
    (hr : st.remaining = 0) : distKeysPost cfg st.keys := by
  refine ⟨h.len, ?_⟩
  intro n hn
  have hlt : n < st.keys.length := by rw [h.len]; exact hn
  have hget : st.keys[n]? = some st.keys[n] := List.getElem?_eq_getElem hlt
  have hnot : "" ∉ st.keys := by
    rw [← List.count_eq_zero, ← h.rem, hr]
  rcases h.slots n _ hget with he | ⟨i, hi, hk, hp⟩
  · exact absurd (he ▸ List.getElem_mem hlt) hnot
  · exact ⟨i, hi, by rw [hget, hk], by rw [← hk]; exact hp⟩

/-- A slice returned by the loop has one candidate per node. -/
theorem distKeysLoop_sound (cfg : routeConfig) (fuel : Nat) :
    ∀ (st : distState) (keys : List String), distInv cfg st →
      distKeysLoop cfg fuel st = some (.ok keys) → distKeysPost cfg keys := by
  induction fuel with
  | zero =>
    intro st keys h hl
    by_cases hr : 0 < st.remaining
    · rw [distKeysLoop_out cfg st hr] at hl; cases hl
    · have hr0 : st.remaining = 0 := by omega
      rw [distKeysLoop_zero_rem cfg 0 st hr0] at hl
      cases hl
      exact distInv_post cfg st h hr0
  | succ fuel ih =>
    intro st keys h hl
    by_cases hr : 0 < st.remaining
    · obtain ⟨st2, hb, h2⟩ := distKeysBody_inv cfg st h
      rw [distKeysLoop_succ cfg fuel st st2 hr hb] at hl
      exact ih st2 keys h2 hl
    · have hr0 : st.remaining = 0 := by omega
      rw [distKeysLoop_zero_rem cfg _ st hr0] at hl
      cases hl
      exact distInv_post cfg st h hr0

/-- The loop never panics. -/
theorem distKeysLoop_no_panic (cfg : routeConfig) (fuel : Nat) :
    ∀ (st : distState) (e : String), distInv cfg st →
      distKeysLoop cfg fuel st ≠ some (.error e) := by
  induction fuel with
  | zero =>
    intro st e h hl
    by_cases hr : 0 < st.remaining
    · rw [distKeysLoop_out cfg st hr] at hl; cases hl
    · have hr0 : st.remaining = 0 := by omega
      rw [distKeysLoop_zero_rem cfg 0 st hr0] at hl
      cases hl
  | succ fuel ih =>
    intro st e h hl
    by_cases hr : 0 < st.remaining
    · obtain ⟨st2, hb, h2⟩ := distKeysBody_inv cfg st h
      rw [distKeysLoop_succ cfg fuel st st2 hr hb] at hl
      exact ih st2 e h2 hl
    · have hr0 : st.remaining = 0 := by omega
      rw [distKeysLoop_zero_rem cfg _ st hr0] at hl
      cases hl

/-- From a state with an empty slot `n` and a candidate counter `t` routed to `n` lying `d`
increments ahead, some slot is filled after finitely many passes. -/
theorem distKeysLoop_progress (cfg : routeConfig) (n : Nat) (t : Int) (ht : inInt t)
    (hp : primaryNode cfg (distKeyName t) = .ok (n : Int)) (d : Nat) :
    ∀ st : distState, distInv cfg st → st.keys[n]? = some "" →
      ((t - st.i) % 2 ^ 64).toNat = d →
      ∃ (st2 : distState) (k : Nat), distInv cfg st2 ∧ st2.remaining + 1 = st.remaining ∧
        ∀ fuel, distKeysLoop cfg (fuel + k) st = distKeysLoop cfg fuel st2 := by
  induction d with
  | zero =>
    intro st h hk hd
    have hi := h.range
    have hti : st.i = t := by unfold inInt at ht hi; omega
    have ha : accepts cfg st n := ⟨by rw [hti]; exact hp, hk⟩
    have hpos : 0 < st.remaining := by
      rw [h.rem, List.count_pos_iff]; exact List.mem_iff_getElem?.2 ⟨n, hk⟩
    refine ⟨_, 1, distInv_accept cfg st n h ha, ?_, ?_⟩
    · simp only; omega
    · intro fuel
      exact distKeysLoop_succ cfg fuel st _ hpos (distKeysBody_accept cfg st n ha)
  | succ d ih =>
    intro st h hk hd
    have hpos : 0 < st.remaining := by
      rw [h.rem, List.count_pos_iff]; exact List.mem_iff_getElem?.2 ⟨n, hk⟩
    by_cases ha : ∃ m, accepts cfg st m
    · obtain ⟨m, hm⟩ := ha
      refine ⟨_, 1, distInv_accept cfg st m h hm, ?_, ?_⟩
      · simp only; omega
      · intro fuel
        exact distKeysLoop_succ cfg fuel st _ hpos (distKeysBody_accept cfg st m hm)
    · have ha2 : ∀ m, ¬ accepts cfg st m := fun m hm => ha ⟨m, hm⟩
      have hd2 : ((t - wrapInt (st.i + 1)) % 2 ^ 64).toNat = d := by
        unfold wrapInt; omega
      obtain ⟨st2, k, h2, hr2, hl2⟩ :=
        ih { st with i := wrapInt (st.i + 1) } (distInv_skip cfg st h) hk hd2
      refine ⟨st2, k + 1, h2, hr2, ?_⟩
      intro fuel
      rw [← Nat.add_assoc,
        distKeysLoop_succ cfg (fuel + k) st _ hpos (distKeysBody_skip cfg st ha2)]
      exact hl2 fuel

/-- On a covered topology the loop is left after finitely many passes. -/
theorem distKeysLoop_terminates (cfg : routeConfig) (hc : covered cfg) (r : Nat) :
    ∀ st : distState, distInv cfg st → st.remaining = r →
      ∃ (fuel : Nat) (keys : List String), distKeysLoop cfg fuel st = some (.ok keys) := by
  induction r with
  | zero =>
    intro st _ hr
    exact ⟨0, st.keys, distKeysLoop_zero_rem cfg 0 st hr⟩
  | succ r ih =>
    intro st h hr
    have hmem : "" ∈ st.keys := by
      rw [← List.count_pos_iff, ← h.rem]; omega
    obtain ⟨n, hn⟩ := List.mem_iff_getElem?.1 hmem
    have hlt : n < cfg.NumPipelines := by
      rw [← h.len]
      rcases Nat.lt_or_ge n st.keys.length with h1 | h1
      · exact h1
      · rw [List.getElem?_eq_none h1] at hn; cases hn
    obtain ⟨t, ht, hp⟩ := hc n hlt
    obtain ⟨st2, k, h2, hr2, hl2⟩ := distKeysLoop_progress cfg n t ht hp _ st h hn rfl
    obtain ⟨fuel, keys, hf⟩ := ih st2 h2 (by omega)
    exact ⟨fuel + k, keys, by rw [hl2 fuel]; exact hf⟩

/-- More fuel does not change a result. -/
theorem distKeysLoop_mono (cfg : routeConfig) (fuel : Nat) :
    ∀ (st : distState) (r : Except String (List String)),
      distKeysLoop cfg fuel st = some r → distKeysLoop cfg (fuel + 1) st = some r := by
  induction fuel with
  | zero =>
    intro st r hl
    by_cases hr : 0 < st.remaining
    · rw [distKeysLoop_out cfg st hr] at hl; cases hl
    · have hr0 : st.remaining = 0 := by omega
      rw [distKeysLoop_zero_rem cfg _ st hr0] at hl ⊢
      exact hl
  | succ fuel ih =>
    intro st r hl
    by_cases hr : 0 < st.remaining
    · cases hb : distKeysBody cfg st with
      | error e =>
        rw [distKeysLoop] at hl ⊢
        simp only [hr, if_true, hb] at hl ⊢
        exact hl
      | ok st2 =>
        rw [distKeysLoop_succ cfg fuel st st2 hr hb] at hl
        rw [distKeysLoop_succ cfg (fuel + 1) st st2 hr hb]
        exact ih st2 r hl
    · have hr0 : st.remaining = 0 := by omega
      rw [distKeysLoop_zero_rem cfg _ st hr0] at hl ⊢
      exact hl

/-- C4: whenever `makeDistKeys` returns on a topology with N nodes, the result has exactly N
entries; entry `n` is a non-empty key `DistKey_<i>` whose vbucket has primary node `n`; the
keys are pairwise distinct; and each node is the primary node of exactly one of them. -/
theorem makeDistKeys_one_key_per_node (cfg : routeConfig) (fuel : Nat) (keys : List String)
    (h : makeDistKeys cfg fuel = some (.ok keys)) :
    keys.length = cfg.NumPipelines ∧
    (∀ n, n < cfg.NumPipelines → ∃ i : Int, keys[n]? = some (distKeyName i) ∧
      distKeyName i ≠ "" ∧ primaryNode cfg (distKeyName i) = .ok (n : Int)) ∧
    keys.Nodup ∧
    (∀ n, n < cfg.NumPipelines → ∃! k, k ∈ keys ∧ primaryNode cfg k = .ok (n : Int)) := by
  obtain ⟨hlen, hpost⟩ := distKeysLoop_sound cfg fuel _ keys (distInv_init cfg) h
  have hinj : ∀ a b k, a < cfg.NumPipelines → b < cfg.NumPipelines →
      keys[a]? = some k → keys[b]? = some k → a = b := by
    intro a b k ha hb hka hkb
    obtain ⟨i, _, hi, hpi⟩ := hpost a ha
    obtain ⟨j, _, hj, hpj⟩ := hpost b hb
    rw [hka] at hi
    rw [hkb] at hj
    have hi2 := Option.some.inj hi
    have hj2 := Option.some.inj hj
    rw [← hi2] at hpi
    rw [← hj2, hpi] at hpj
    have := Except.ok.inj hpj
    omega
  refine ⟨hlen, ?_, ?_, ?_⟩
  · intro n hn
    obtain ⟨i, _, hi, hpi⟩ := hpost n hn
    exact ⟨i, hi, distKeyName_ne_empty i, hpi⟩
  · rw [List.nodup_iff_getElem?_ne_getElem?]
    intro a b hab hb heq
    have hb2 : b < cfg.NumPipelines := by rw [← hlen]; exact hb
    have ha2 : a < cfg.NumPipelines := by omega
    have hgb : keys[b]? = some keys[b] := List.getElem?_eq_getElem hb
    have := hinj a b _ ha2 hb2 (by rw [heq, hgb]) hgb
    omega
  · intro n hn
    obtain ⟨i, _, hi, hpi⟩ := hpost n hn
    refine ⟨distKeyName i, ⟨List.mem_iff_getElem?.2 ⟨n, hi⟩, hpi⟩, ?_⟩
    rintro k ⟨hk, hpk⟩
    obtain ⟨m, hm⟩ := List.mem_iff_getElem?.1 hk
    have hmlt : m < cfg.NumPipelines := by
      rw [← hlen]
      rcases Nat.lt_or_ge m keys.length with h1 | h1
      · exact h1
      · rw [List.getElem?_eq_none h1] at hm; cases hm
    obtain ⟨j, _, hj, hpj⟩ := hpost m hmlt
    rw [hm] at hj
    have hj2 := Option.some.inj hj
    rw [← hj2, hpk] at hpj
    have hmn : m = n := by have := Except.ok.inj hpj; omega
    subst hmn
    rw [hm] at hi
    exact Option.some.inj hi

/-- The run of `makeDistKeys` on the two-node topology `twoNodes`. -/
theorem makeDistKeys_one_key_per_node_witness :
    makeDistKeys twoNodes 2 = some (.ok ["DistKey_0", "DistKey_1"]) ∧
    (["DistKey_0", "DistKey_1"].length = twoNodes.NumPipelines ∧
    (∀ n, n < twoNodes.NumPipelines → ∃ i : Int,
      ["DistKey_0", "DistKey_1"][n]? = some (distKeyName i) ∧
      distKeyName i ≠ "" ∧ primaryNode twoNodes (distKeyName i) = .ok (n : Int)) ∧
    ["DistKey_0", "DistKey_1"].Nodup ∧
    (∀ n, n < twoNodes.NumPipelines →
      ∃! k, k ∈ ["DistKey_0", "DistKey_1"] ∧ primaryNode twoNodes k = .ok (n : Int))) :=
  ⟨by decide, makeDistKeys_one_key_per_node twoNodes 2 ["DistKey_0", "DistKey_1"] (by decide)⟩

/-- C5 (amended): `makeDistKeys` returns after finitely many candidates exactly on the
topologies in which every node `n < N` is the primary node of some candidate `DistKey_<i>`,
`i` an `int`; a run that returned returns the same with more fuel; and for N = 0 it returns
the empty list without generating a candidate. -/
theorem makeDistKeys_terminates_iff_covered (cfg : routeConfig) :
    ((∃ (fuel : Nat) (keys : List String), makeDistKeys cfg fuel = some (.ok keys)) ↔
      ∀ n, n < cfg.NumPipelines →
        ∃ i : Int, (-2 ^ 63 ≤ i ∧ i < 2 ^ 63) ∧ primaryNode cfg (distKeyName i) = .ok (n : Int)) ∧
    (∀ (fuel : Nat) (r : Except String (List String)),
      makeDistKeys cfg fuel = some r → makeDistKeys cfg (fuel + 1) = some r) ∧
    (cfg.NumPipelines = 0 → makeDistKeys cfg 0 = some (.ok [])) := by
  refine ⟨⟨?_, ?_⟩, ?_, ?_⟩
  · rintro ⟨fuel, keys, h⟩ n hn
    obtain ⟨_, hpost⟩ := distKeysLoop_sound cfg fuel _ keys (distInv_init cfg) h
    obtain ⟨i, hi, _, hp⟩ := hpost n hn
    exact ⟨i, hi, hp⟩
  · intro hc
    exact distKeysLoop_terminates cfg hc _ _ (distInv_init cfg) rfl
  · intro fuel r h
    exact distKeysLoop_mono cfg fuel _ r h
  · intro h0
    unfold makeDistKeys
    rw [distKeysLoop_zero_rem cfg 0 _ (by simp [distKeysInit, h0])]
    simp [distKeysInit, h0]

/-- C5 as stated fails: on the two-node topology `idleNode`, whose second node is the
primary of no vbucket, no number of candidates lets `makeDistKeys` return. -/
theorem makeDistKeys_idleNode_diverges :
    ¬ ∃ fuel, makeDistKeys idleNode fuel ≠ none := by
  rintro ⟨fuel, h⟩
  cases hr : makeDistKeys idleNode fuel with
  | none => exact h hr
  | some r =>
    cases r with
    | error e => exact distKeysLoop_no_panic idleNode fuel _ e (distInv_init idleNode) hr
    | ok keys =>
      obtain ⟨_, hpost⟩ := distKeysLoop_sound idleNode fuel _ keys (distInv_init idleNode) hr
      obtain ⟨i, _, _, hp⟩ := hpost 1 (by decide)
      simp [primaryNode, idleNode, singleMap] at hp

/-- Termination on `twoNodes`, and the empty topology. -/
theorem makeDistKeys_terminates_iff_covered_witness :
    (∃ (fuel : Nat) (keys : List String), makeDistKeys twoNodes fuel = some (.ok keys)) ∧
    makeDistKeys twoNodes 2 = some (.ok ["DistKey_0", "DistKey_1"]) ∧
    makeDistKeys { vbMap := singleMap, NumPipelines := 0 } 0 = some (.ok []) :=
  ⟨(makeDistKeys_terminates_iff_covered twoNodes).1.2 (by
      intro n hn
      have h2 : n < 2 := hn
      interval_cases n
      · exact ⟨0, by decide, by decide⟩
      · exact ⟨1, by decide, by decide⟩),
   by decide,
   (makeDistKeys_terminates_iff_covered { vbMap := singleMap, NumPipelines := 0 }).2.2 rfl⟩

/-- The counter after `p + 1` increments. -/
theorem wrapInt_succ (p : Nat) : wrapInt (wrapInt (p : Int) + 1) = wrapInt ((p + 1 : Nat) : Int) := by
  unfold wrapInt; push_cast; omega

/-- The order invariant holds on entry to the loop. -/
theorem distOrd_init (cfg : routeConfig) : distOrd cfg (distKeysInit cfg) 0 := by
  refine ⟨by simp [distKeysInit, wrapInt], ?_⟩
  intro n k hk
  left
  simp only [distKeysInit, List.getElem?_replicate] at hk
  split at hk
  · exact ⟨(Option.some.inj hk).symm, fun q hq => absurd hq (Nat.not_lt_zero q)⟩
  · cases hk

/-- A skipped candidate keeps the order invariant. -/
theorem distOrd_skip (cfg : routeConfig) (st : distState) (p : Nat) (h : distOrd cfg st p)
    (hs : ∀ n, ¬ accepts cfg st n) :
    distOrd cfg { st with i := wrapInt (st.i + 1) } (p + 1) := by
  refine ⟨by simp only [h.counter]; exact wrapInt_succ p, ?_⟩
  intro n k hk
  rcases h.slots n k hk with ⟨he, hq⟩ | ⟨q, hq, hk2, hp, hmin⟩
  · left
    refine ⟨he, ?_⟩
    intro q hq2
    rcases Nat.lt_succ_iff_lt_or_eq.1 hq2 with h1 | h1
    · exact hq q h1
    · intro hp
      apply hs n
      refine ⟨?_, by rw [← he]; exact hk⟩
      rw [h.counter, ← h1]; exact hp
  · right
    exact ⟨q, Nat.lt_succ_of_lt hq, hk2, hp, hmin⟩

/-- An accepted candidate keeps the order invariant. -/
theorem distOrd_accept (cfg : routeConfig) (st : distState) (p n : Nat) (h : distOrd cfg st p)
    (ha : accepts cfg st n) :
    distOrd cfg { i := wrapInt (st.i + 1), keys := st.keys.set n (distKeyName st.i),
                  remaining := st.remaining - 1 } (p + 1) := by
  obtain ⟨hpn, hkn⟩ := ha
  refine ⟨by simp only [h.counter]; exact wrapInt_succ p, ?_⟩
  intro m k hm
  simp only [List.getElem?_set] at hm
  by_cases hnm : n = m
  · subst hnm
    simp only [if_true] at hm
    split at hm
    · right
      have hk2 : k = distKeyName st.i := (Option.some.inj hm).symm
      refine ⟨p, Nat.lt_succ_self p, by rw [hk2, h.counter], by rw [hk2]; exact hpn, ?_⟩
      rcases h.slots n _ hkn with ⟨_, hq⟩ | ⟨q, _, hk3, _, _⟩
      · exact hq
      · exact absurd hk3.symm (distKeyName_ne_empty _)
    · cases hm
  · simp only [hnm, if_false] at hm
    rcases h.slots m k hm with ⟨he, hq⟩ | ⟨q, hq, hk2, hp, hmin⟩
    · left
      refine ⟨he, ?_⟩
      intro q hq2
      rcases Nat.lt_succ_iff_lt_or_eq.1 hq2 with h1 | h1
      · exact hq q h1
      · intro hp
        rw [h1, ← h.counter, hpn] at hp
        have := Except.ok.inj hp
        omega
    · right
      exact ⟨q, Nat.lt_succ_of_lt hq, hk2, hp, hmin⟩

/-- The two invariants with `remaining = 0` give the first candidates. -/
theorem distOrd_post (cfg : routeConfig) (st : distState) (p : Nat) (h : distInv cfg st)
    (ho : distOrd cfg st p) (hr : st.remaining = 0) : distKeysFirst cfg st.keys := by
  intro n hn
  have hlt : n < st.keys.length := by rw [h.len]; exact hn
  have hget : st.keys[n]? = some st.keys[n] := List.getElem?_eq_getElem hlt
  have hnot : "" ∉ st.keys := by
    rw [← List.count_eq_zero, ← h.rem, hr]
  rcases ho.slots n _ hget with ⟨he, _⟩ | ⟨q, _, hk, hp, hmin⟩
  · exact absurd (he ▸ List.getElem_mem hlt) hnot
  · exact ⟨q, by rw [hget, hk], by rw [← hk]; exact hp, hmin⟩

/-- A slice returned by the loop holds the first candidate of every node. -/
theorem distKeysLoop_first (cfg : routeConfig) (fuel : Nat) :
    ∀ (st : distState) (p : Nat) (keys : List String), distInv cfg st → distOrd cfg st p →
      distKeysLoop cfg fuel st = some (.ok keys) → distKeysFirst cfg keys := by
  induction fuel with
  | zero =>
    intro st p keys h ho hl
    by_cases hr : 0 < st.remaining
    · rw [distKeysLoop_out cfg st hr] at hl; cases hl
    · have hr0 : st.remaining = 0 := by omega
      rw [distKeysLoop_zero_rem cfg 0 st hr0] at hl
      cases hl
      exact distOrd_post cfg st p h ho hr0
  | succ fuel ih =>
    intro st p keys h ho hl
    by_cases hr : 0 < st.remaining
    · by_cases ha : ∃ n, accepts cfg st n
      · obtain ⟨n, hn⟩ := ha
        rw [distKeysLoop_succ cfg fuel st _ hr (distKeysBody_accept cfg st n hn)] at hl
        exact ih _ (p + 1) keys (distInv_accept cfg st n h hn) (distOrd_accept cfg st p n ho hn) hl
      · have ha2 : ∀ n, ¬ accepts cfg st n := fun n hn => ha ⟨n, hn⟩
        rw [distKeysLoop_succ cfg fuel st _ hr (distKeysBody_skip cfg st ha2)] at hl
        exact ih _ (p + 1) keys (distInv_skip cfg st h) (distOrd_skip cfg st p ho ha2) hl
    · have hr0 : st.remaining = 0 := by omega
      rw [distKeysLoop_zero_rem cfg _ st hr0] at hl
      cases hl
      exact distOrd_post cfg st p h ho hr0

/-- The two invariants with `remaining = 0` on entry to pass `p`: every slot was filled in
a pass before `p`, by the first candidate routed to it. -/
theorem distOrd_post_within (cfg : routeConfig) (st : distState) (p : Nat)
    (h : distInv cfg st) (ho : distOrd cfg st p) (hr : st.remaining = 0) :
    ∀ n, n < cfg.NumPipelines → ∃ q : Nat, q < p ∧
      st.keys[n]? = some (distKeyName (wrapInt q)) ∧
      primaryNode cfg (distKeyName (wrapInt q)) = .ok (n : Int) ∧
      ∀ r, r < q → primaryNode cfg (distKeyName (wrapInt r)) ≠ .ok (n : Int) := by
  intro n hn
  have hlt : n < st.keys.length := by rw [h.len]; exact hn
  have hget : st.keys[n]? = some st.keys[n] := List.getElem?_eq_getElem hlt
  have hnot : "" ∉ st.keys := by
    rw [← List.count_eq_zero, ← h.rem, hr]
  rcases ho.slots n _ hget with ⟨he, _⟩ | ⟨q, hq, hk, hp, hmin⟩
  · exact absurd (he ▸ List.getElem_mem hlt) hnot
  · exact ⟨q, hq, by rw [hget, hk], by rw [← hk]; exact hp, hmin⟩

/-- A slice returned by the loop within `fuel` passes holds, for every node, the first
candidate routed to it, generated in one of these passes. -/
theorem distKeysLoop_first_within (cfg : routeConfig) (fuel : Nat) :
    ∀ (st : distState) (p : Nat) (keys : List String), distInv cfg st → distOrd cfg st p →
      distKeysLoop cfg fuel st = some (.ok keys) →
      ∀ n, n < cfg.NumPipelines → ∃ q : Nat, q < p + fuel ∧
        keys[n]? = some (distKeyName (wrapInt q)) ∧
        primaryNode cfg (distKeyName (wrapInt q)) = .ok (n : Int) ∧
        ∀ r, r < q → primaryNode cfg (distKeyName (wrapInt r)) ≠ .ok (n : Int) := by
  induction fuel with
  | zero =>
    intro st p keys h ho hl
    by_cases hr : 0 < st.remaining
    · rw [distKeysLoop_out cfg st hr] at hl; cases hl
    · have hr0 : st.remaining = 0 := by omega
      rw [distKeysLoop_zero_rem cfg 0 st hr0] at hl
      cases hl
      exact distOrd_post_within cfg st p h ho hr0
  | succ fuel ih =>
    intro st p keys h ho hl n hn
    by_cases hr : 0 < st.remaining
    · by_cases ha : ∃ m, accepts cfg st m
      · obtain ⟨m, hm⟩ := ha
        rw [distKeysLoop_succ cfg fuel st _ hr (distKeysBody_accept cfg st m hm)] at hl
        obtain ⟨q, hq, hrest⟩ := ih _ (p + 1) keys (distInv_accept cfg st m h hm)
          (distOrd_accept cfg st p m ho hm) hl n hn
        exact ⟨q, by omega, hrest⟩
      · have ha2 : ∀ m, ¬ accepts cfg st m := fun m hm => ha ⟨m, hm⟩
        rw [distKeysLoop_succ cfg fuel st _ hr (distKeysBody_skip cfg st ha2)] at hl
        obtain ⟨q, hq, hrest⟩ := ih _ (p + 1) keys (distInv_skip cfg st h)
          (distOrd_skip cfg st p ho ha2) hl n hn
        exact ⟨q, by omega, hrest⟩
    · have hr0 : st.remaining = 0 := by omega
      rw [distKeysLoop_zero_rem cfg _ st hr0] at hl
      cases hl
      obtain ⟨q, hq, hrest⟩ := distOrd_post_within cfg st p h ho hr0 n hn
      exact ⟨q, by omega, hrest⟩

/-- On a run of at most `2^63` passes the counter does not wrap: entry `n` is the
candidate with the least counter `i ≥ 0` whose primary node is `n`. -/
theorem makeDistKeys_least_counter (cfg : routeConfig) (fuel : Nat) (keys : List String)
    (hf : fuel ≤ 2 ^ 63) (h : makeDistKeys cfg fuel = some (.ok keys)) :
      ∀ n, n < cfg.NumPipelines →
        ∃ i : Int, 0 ≤ i ∧ keys[n]? = some (distKeyName i) ∧
          primaryNode cfg (distKeyName i) = .ok (n : Int) ∧
          ∀ j : Int, 0 ≤ j → j < i → primaryNode cfg (distKeyName j) ≠ .ok (n : Int) := by
  intro n hn
  obtain ⟨p, hpf, hk, hp, hmin⟩ :=
    distKeysLoop_first_within cfg fuel _ 0 keys (distInv_init cfg) (distOrd_init cfg) h n hn
  have hwp : wrapInt (p : Int) = (p : Int) := by unfold wrapInt; omega
  rw [hwp] at hk hp
  refine ⟨(p : Int), by omega, hk, hp, ?_⟩
  intro j hj hlt hp2
  have hw2 : wrapInt ((j.toNat : Nat) : Int) = j := by unfold wrapInt; omega
  exact hmin j.toNat (by omega) (by rw [hw2]; exact hp2)

/-- Any amount of additional fuel leaves a result unchanged. -/
theorem distKeysLoop_mono_add (cfg : routeConfig) (st : distState)
    (r : Except String (List String)) (fuel : Nat) (h : distKeysLoop cfg fuel st = some r) :
    ∀ k, distKeysLoop cfg (fuel + k) st = some r := by
  intro k
  induction k with
  | zero => exact h
  | succ k ih => exact distKeysLoop_mono cfg (fuel + k) st r ih

/-- One pass does not change a filled slot. -/
theorem distKeysBody_keeps (cfg : routeConfig) (st st2 : distState) (m : Nat) (k : String)
    (hb : distKeysBody cfg st = .ok st2) (hm : st.keys[m]? = some k) (hk : k ≠ "") :
    st2.keys[m]? = some k := by
  by_cases ha : ∃ n, accepts cfg st n
  · obtain ⟨n, hn⟩ := ha
    rw [distKeysBody_accept cfg st n hn] at hb
    cases hb
    have hnm : n ≠ m := by
      intro e
      subst e
      rw [hn.2] at hm
      exact hk (Option.some.inj hm).symm
    simp only [List.getElem?_set, hnm, if_false]
    exact hm
  · have ha2 : ∀ n, ¬ accepts cfg st n := fun n hn => ha ⟨n, hn⟩
    rw [distKeysBody_skip cfg st ha2] at hb
    cases hb
    exact hm

/-- C13: a candidate is accepted exactly when its routing succeeds with an in-range node
whose slot is still empty, and is skipped otherwise; a filled slot is never overwritten;
whenever `makeDistKeys` returns, within the `2^63` passes in which the counter runs through
0, 1, 2, ... without wrapping, entry `n` is the candidate with the least counter `i ≥ 0`
whose primary node is `n`; on a run of any length entry `n` is the first candidate, in the
order of the passes, whose primary node is `n`, which is the one of the least counter
`i ≥ 0` as soon as some counter `0 ≤ j < 2^63` has primary node `n`; and the result is the
same for every amount of fuel that lets the run return. -/
theorem makeDistKeys_first_candidate (cfg : routeConfig) :
    (∀ st : distState,
      (∃ n, accepts cfg st n ∧
        distKeysBody cfg st = .ok { i := wrapInt (st.i + 1),
                                    keys := st.keys.set n (distKeyName st.i),
                                    remaining := st.remaining - 1 }) ∨
      ((∀ n, ¬ accepts cfg st n) ∧
        distKeysBody cfg st = .ok { st with i := wrapInt (st.i + 1) })) ∧
    (∀ (st st2 : distState) (m : Nat) (k : String), distKeysBody cfg st = .ok st2 →
      st.keys[m]? = some k → k ≠ "" → st2.keys[m]? = some k) ∧
    (∀ (fuel : Nat) (keys : List String), fuel ≤ 2 ^ 63 →
      makeDistKeys cfg fuel = some (.ok keys) →
      ∀ n, n < cfg.NumPipelines →
        ∃ i : Int, 0 ≤ i ∧ keys[n]? = some (distKeyName i) ∧
          primaryNode cfg (distKeyName i) = .ok (n : Int) ∧
          ∀ j : Int, 0 ≤ j → j < i → primaryNode cfg (distKeyName j) ≠ .ok (n : Int)) ∧
    (∀ (fuel : Nat) (keys : List String), makeDistKeys cfg fuel = some (.ok keys) →
      ∀ n, n < cfg.NumPipelines →
        ∃ p : Nat, keys[n]? = some (distKeyName (wrapInt p)) ∧
          primaryNode cfg (distKeyName (wrapInt p)) = .ok (n : Int) ∧
          ∀ q, q < p → primaryNode cfg (distKeyName (wrapInt q)) ≠ .ok (n : Int)) ∧
    (∀ (fuel : Nat) (keys : List String), makeDistKeys cfg fuel = some (.ok keys) →
      ∀ n, n < cfg.NumPipelines →
        (∃ j : Int, 0 ≤ j ∧ j < 2 ^ 63 ∧ primaryNode cfg (distKeyName j) = .ok (n : Int)) →
        ∃ i : Int, 0 ≤ i ∧ keys[n]? = some (distKeyName i) ∧
          primaryNode cfg (distKeyName i) = .ok (n : Int) ∧
          ∀ j : Int, 0 ≤ j → j < i → primaryNode cfg (distKeyName j) ≠ .ok (n : Int)) ∧
    (∀ (fuel1 fuel2 : Nat) (keys1 keys2 : List String),
      makeDistKeys cfg fuel1 = some (.ok keys1) → makeDistKeys cfg fuel2 = some (.ok keys2) →
        keys1 = keys2) := by
  refine ⟨?_, ?_, ?_, ?_, ?_, ?_⟩
  · intro st
    by_cases ha : ∃ n, accepts cfg st n
    · obtain ⟨n, hn⟩ := ha
      exact Or.inl ⟨n, hn, distKeysBody_accept cfg st n hn⟩
    · have ha2 : ∀ n, ¬ accepts cfg st n := fun n hn => ha ⟨n, hn⟩
      exact Or.inr ⟨ha2, distKeysBody_skip cfg st ha2⟩
  · exact fun st st2 m k => distKeysBody_keeps cfg st st2 m k
  · exact fun fuel keys hf h => makeDistKeys_least_counter cfg fuel keys hf h
  · intro fuel keys h
    exact distKeysLoop_first cfg fuel _ 0 keys (distInv_init cfg) (distOrd_init cfg) h
  · intro fuel keys h n hn hj
    obtain ⟨p, hk, hp, hmin⟩ :=
      distKeysLoop_first cfg fuel _ 0 keys (distInv_init cfg) (distOrd_init cfg) h n hn
    obtain ⟨j, hj0, hj1, hjp⟩ := hj
    have hwj : wrapInt ((j.toNat : Nat) : Int) = j := by unfold wrapInt; omega
    have hpj : p ≤ j.toNat := by
      by_contra hlt
      exact hmin j.toNat (by omega) (by rw [hwj]; exact hjp)
    have hwp : wrapInt (p : Int) = (p : Int) := by unfold wrapInt; omega
    rw [hwp] at hk hp
    refine ⟨(p : Int), by omega, hk, hp, ?_⟩
    intro j2 hj2 hlt hp2
    have hw2 : wrapInt ((j2.toNat : Nat) : Int) = j2 := by unfold wrapInt; omega
    exact hmin j2.toNat (by omega) (by rw [hw2]; exact hp2)
  · intro fuel1 fuel2 keys1 keys2 h1 h2
    have e1 := distKeysLoop_mono_add cfg _ _ fuel1 h1 fuel2
    have e2 := distKeysLoop_mono_add cfg _ _ fuel2 h2 fuel1
    rw [Nat.add_comm] at e2
    unfold makeDistKeys at *
    rw [e1] at e2
    exact Except.ok.inj (Option.some.inj e2)

/-- The run of `makeDistKeys` on `twoNodes`, two passes long: the candidates of least
counter of its two nodes. -/
theorem makeDistKeys_first_candidate_witness :
    (2 ≤ 2 ^ 63 ∧ makeDistKeys twoNodes 2 = some (.ok ["DistKey_0", "DistKey_1"])) ∧
    (∀ n, n < twoNodes.NumPipelines →
      ∃ i : Int, 0 ≤ i ∧ ["DistKey_0", "DistKey_1"][n]? = some (distKeyName i) ∧
        primaryNode twoNodes (distKeyName i) = .ok (n : Int) ∧
        ∀ j : Int, 0 ≤ j → j < i → primaryNode twoNodes (distKeyName j) ≠ .ok (n : Int)) ∧
    ["DistKey_0", "DistKey_1"][0]? = some (distKeyName 0) ∧
    ["DistKey_0", "DistKey_1"][1]? = some (distKeyName 1) ∧
    primaryNode twoNodes (distKeyName 0) ≠ .ok 1 :=
  ⟨⟨by decide, by decide⟩,
   (makeDistKeys_first_candidate twoNodes).2.2.1 2 ["DistKey_0", "DistKey_1"] (by decide)
     (by decide),
   by decide, by decide, by decide⟩

/-- The states `distKeysAfter` are the states the loop of `makeDistKeys` goes through. -/
theorem distKeysAfter_loop (cfg : routeConfig) (k : Nat) :
    ∀ (st : distState) (fuel : Nat), distKeysAfter cfg k = .ok st →
      makeDistKeys cfg (k + fuel) = distKeysLoop cfg fuel st := by
  induction k with
  | zero =>
    intro st fuel h
    simp only [distKeysAfter] at h
    cases h
    simp [makeDistKeys]
  | succ k ih =>
    intro st fuel h
    simp only [distKeysAfter] at h
    cases hk : distKeysAfter cfg k with
    | error e => rw [hk] at h; cases h
    | ok st1 =>
      rw [hk] at h
      simp only at h
      have e1 := ih st1 (fuel + 1) hk
      have e2 : k + 1 + fuel = k + (fuel + 1) := by omega
      rw [e2, e1]
      by_cases hr : 0 < st1.remaining
      · simp only [hr, if_true] at h
        exact distKeysLoop_succ cfg fuel st1 st hr h
      · simp only [hr, if_false] at h
        have hr0 : st1.remaining = 0 := by omega
        rw [← Except.ok.inj h, distKeysLoop_zero_rem cfg _ st1 hr0,
          distKeysLoop_zero_rem cfg _ st1 hr0]

/-- The loop reaches every number of passes without a panic, with the invariant. -/
theorem distKeysAfter_inv (cfg : routeConfig) (k : Nat) :
    ∃ st, distKeysAfter cfg k = .ok st ∧ distInv cfg st := by
  induction k with
  | zero => exact ⟨_, rfl, distInv_init cfg⟩
  | succ k ih =>
    obtain ⟨st, hk, hinv⟩ := ih
    by_cases hr : 0 < st.remaining
    · obtain ⟨st2, hb, h2⟩ := distKeysBody_inv cfg st hinv
      exact ⟨st2, by simp only [distKeysAfter, hk, hr, if_true, hb], h2⟩
    · exact ⟨st, by simp only [distKeysAfter, hk, hr, if_false], hinv⟩

/-- C20: no pass of the loop panics on an index, in any state, and `makeDistKeys` never
panics; a candidate whose routing returns an error, a negative node index or a node index
`≥ len(keys)` is skipped, leaving `keys` and `remaining` unchanged; and after any number of
passes the slice has length N and `remaining` is the number of empty slots. -/
theorem makeDistKeys_index_safe (cfg : routeConfig) :
    (∀ st : distState, ∃ st2, distKeysBody cfg st = .ok st2) ∧
    (∀ (fuel : Nat) (e : String), makeDistKeys cfg fuel ≠ some (.error e)) ∧
    (∀ (st : distState) (e : String), primaryNode cfg (distKeyName st.i) = .error e →
      distKeysBody cfg st = .ok { st with i := wrapInt (st.i + 1) }) ∧
    (∀ (st : distState) (srvIx : Int), primaryNode cfg (distKeyName st.i) = .ok srvIx →
      srvIx < 0 ∨ srvIx ≥ (st.keys.length : Int) →
      distKeysBody cfg st = .ok { st with i := wrapInt (st.i + 1) }) ∧
    (∀ k : Nat, ∃ st, distKeysAfter cfg k = .ok st ∧ st.keys.length = cfg.NumPipelines ∧
      st.remaining = st.keys.count "" ∧
      ∀ fuel, makeDistKeys cfg (k + fuel) = distKeysLoop cfg fuel st) := by
  refine ⟨?_, ?_, ?_, ?_, ?_⟩
  · intro st
    by_cases ha : ∃ n, accepts cfg st n
    · obtain ⟨n, hn⟩ := ha
      exact ⟨_, distKeysBody_accept cfg st n hn⟩
    · exact ⟨_, distKeysBody_skip cfg st (fun n hn => ha ⟨n, hn⟩)⟩
  · intro fuel e
    exact distKeysLoop_no_panic cfg fuel _ e (distInv_init cfg)
  · intro st e he
    apply distKeysBody_skip
    rintro n ⟨hp, _⟩
    rw [he] at hp
    cases hp
  · intro st srvIx hs hrange
    apply distKeysBody_skip
    rintro n ⟨hp, hk⟩
    rw [hs] at hp
    have hn := Except.ok.inj hp
    have hlt : n < st.keys.length := by
      rcases Nat.lt_or_ge n st.keys.length with h1 | h1
      · exact h1
      · rw [List.getElem?_eq_none h1] at hk; cases hk
    omega
  · intro k
    obtain ⟨st, hk, hinv⟩ := distKeysAfter_inv cfg k
    exact ⟨st, hk, hinv.len, hinv.rem, fun fuel => distKeysAfter_loop cfg k st fuel hk⟩

/-- A skipped candidate on `vacantNode`, and the state after three passes on `idleNode`. -/
theorem makeDistKeys_index_safe_witness :
    primaryNode vacantNode (distKeyName (distKeysInit vacantNode).i) =
      .error "invalid replica" ∧
    distKeysBody vacantNode (distKeysInit vacantNode) =
      .ok { distKeysInit vacantNode with i := wrapInt ((distKeysInit vacantNode).i + 1) } ∧
    primaryNode idleNode (distKeyName 0) = .ok 0 ∧
    (∃ st, distKeysAfter idleNode 3 = .ok st ∧ st.keys.length = idleNode.NumPipelines ∧
      st.remaining = st.keys.count "" ∧
      ∀ fuel, makeDistKeys idleNode (3 + fuel) = distKeysLoop idleNode fuel st) :=
  ⟨by decide,
   (makeDistKeys_index_safe vacantNode).2.2.1 (distKeysInit vacantNode) "invalid replica"
     (by decide),
   by decide,
   (makeDistKeys_index_safe idleNode).2.2.2.2 3⟩

/-! ## The key-value operations -/

/-- A new CAS is never the reserved zero. -/
theorem freshCas_ne_zero (b : Bucket) : b.freshCas ≠ 0 := by
  simp [Bucket.freshCas]

/-- An item just stored, not yet expired, is the one found under its key. -/
theorem lookup_store (b : Bucket) (key : List UInt8) (value : Value) (flags : Nat)
    (e : Option Nat) (he : ∀ t, e = some t → b.now < t) :
    (b.store key value flags e).2.lookup key =
      some { value := value, flags := flags, cas := b.freshCas, expiresAt := e } := by
  cases e with
  | none => simp [Bucket.lookup, Bucket.store, Item.expired]
  | some t =>
    have := he t rfl
    have h2 : ¬ (t ≤ b.now) := by omega
    simp [Bucket.lookup, Bucket.store, Item.expired, h2]

/-- An expiry time asked for now lies in the future. -/
theorem deadline_later (b : Bucket) (expiry t : Nat) (h : b.deadline expiry = some t) :
    b.now < t := by
  unfold Bucket.deadline at h
  split at h
  · cases h
  · cases h; omega

/-- An item that is found has not expired. -/
theorem lookup_live (b : Bucket) (key : List UInt8) (it : Item) (h : b.lookup key = some it) :
    ∀ t, it.expiresAt = some t → b.now < t := by
  intro t ht
  unfold Bucket.lookup at h
  cases hi : b.items key with
  | none => rw [hi] at h; cases h
  | some it2 =>
    rw [hi] at h
    simp only at h
    split at h
    · cases h
    · rename_i hex
      cases h
      simp [Item.expired, ht] at hex
      exact hex

/-- Storing an item does not move the clock. -/
theorem store_now (b : Bucket) (key : List UInt8) (value : Value) (flags : Nat)
    (e : Option Nat) : (b.store key value flags e).2.now = b.now := rfl

/-- C7: for every bucket, key, value, flags and expiry, `Set` succeeds with a non-zero
64-bit CAS, and a `Get` of the key that follows it succeeds and returns exactly the value
(and the flags) that were set, with the CAS `Set` returned. -/
theorem set_then_get (b : Bucket) (key value : List UInt8) (flags expiry : Nat) :
    ∃ cas b2, Agent.Set b key value flags expiry = .ok (cas, b2) ∧ cas ≠ 0 ∧ cas < 2 ^ 64 ∧
      Agent.Get b2 key = .ok (.bytes value, flags, cas) := by
  have hl := lookup_store b key (.bytes value) flags _ (deadline_later b expiry)
  refine ⟨b.freshCas, (b.store key (.bytes value) flags (b.deadline expiry)).2, rfl,
    freshCas_ne_zero b, ?_, ?_⟩
  · simp only [Bucket.freshCas]; omega
  · simp only [Agent.Get, hl]

/-- A counter operation on an absent key seeds the counter with the initial value. -/
theorem counterOp_absent (b : Bucket) (f : Nat → Nat) (key : List UInt8) (initial expiry : Nat)
    (h : b.lookup key = none) :
    b.counterOp f key initial expiry =
      .ok ((uint64 initial, b.freshCas),
        (b.store key (.counter (uint64 initial)) 0 (b.deadline expiry)).2) := by
  simp [Bucket.counterOp, h, Bucket.store]

/-- A counter operation on an existing counter applies its function to the value. -/
theorem counterOp_counter (b : Bucket) (f : Nat → Nat) (key : List UInt8) (initial expiry : Nat)
    (it : Item) (v : Nat) (h : b.lookup key = some it) (hv : it.value = .counter v) :
    b.counterOp f key initial expiry =
      .ok ((f v, b.freshCas), (b.store key (.counter (f v)) it.flags it.expiresAt).2) := by
  simp [Bucket.counterOp, h, hv, Bucket.store]

/-- After `Remove` with a zero CAS, failed or not, the key is absent. -/
theorem lookup_after_remove (b : Bucket) (key : List UInt8) :
    (bucketAfter b (Agent.Remove b key 0)).lookup key = none := by
  unfold Agent.Remove
  cases h : b.lookup key with
  | none => simpa [bucketAfter] using h
  | some it => simp [bucketAfter, Bucket.lookup]

/-- The values of `TestBasicCounters` on any bucket and key: 11, 16, 13. -/
theorem basicCountersRun_eq (b : Bucket) (key : List UInt8) :
    ∃ c1 c2 c3, basicCountersRun b key = .ok [(11, c1), (16, c2), (13, c3)] ∧
      c1 ≠ 0 ∧ c2 ≠ 0 ∧ c3 ≠ 0 := by
  have h0 := lookup_after_remove b key
  unfold basicCountersRun
  simp only [Agent.Increment, Agent.Decrement]
  generalize bucketAfter b (Agent.Remove b key 0) = b0 at h0 ⊢
  have e1 := counterOp_absent b0 (fun v => uint64 (v + uint64 5)) key 11 0 h0
  have l1 := lookup_store b0 key (.counter (uint64 11)) 0 _ (deadline_later b0 0)
  generalize hb1 : (b0.store key (.counter (uint64 11)) 0 (b0.deadline 0)).2 = b1 at e1 l1
  have e2 := counterOp_counter b1 (fun v => uint64 (v + uint64 5)) key 22 0 _ _ l1 rfl
  have l2 := lookup_store b1 key (.counter (uint64 (uint64 11 + uint64 5))) 0 (b0.deadline 0)
    (by rw [← hb1]; exact deadline_later b0 0)
  generalize hb2 : (b1.store key (.counter (uint64 (uint64 11 + uint64 5))) 0
    (b0.deadline 0)).2 = b2 at e2 l2
  have e3 := counterOp_counter b2
    (fun v => if v < uint64 3 then 0 else v - uint64 3) key 65 0 _ _ l2 rfl
  refine ⟨b0.freshCas, b1.freshCas, b2.freshCas, ?_, freshCas_ne_zero _, freshCas_ne_zero _,
    freshCas_ne_zero _⟩
  simp only [e1, bind, Except.bind, e2, e3, pure, Except.pure]
  have a1 : uint64 11 = 11 := by decide
  have a2 : uint64 5 = 5 := by decide
  have a3 : uint64 3 = 3 := by decide
  have a4 : uint64 (11 + 5) = 16 := by decide
  rw [a1, a2, a3, a4]
  rfl

/-- C6 (amended): with `delta` and `initial` in `uint64`, increment on an absent key
yields the initial value (the delta is not applied); increment on an existing counter
holding `v` yields `v + delta` whenever that fits in 64 bits, and ignores the initial
value; decrement on an existing counter holding `v` yields `v - delta` when `delta ≤ v`
and 0 otherwise; each with a non-zero CAS and the yielded value stored.  On any bucket and
key the calls of `TestBasicCounters` yield 11, 16 and 13, each with a non-zero CAS. -/
theorem counter_operations (b : Bucket) (key : List UInt8) (delta initial expiry : Nat)
    (hd : delta < 2 ^ 64) (hi : initial < 2 ^ 64) :
    (b.lookup key = none →
      ∃ cas b2, Agent.Increment b key delta initial expiry = .ok ((initial, cas), b2) ∧
        cas ≠ 0 ∧ (Agent.Get b2 key).map Prod.fst = .ok (.counter initial)) ∧
    (∀ it v, b.lookup key = some it → it.value = .counter v → v + delta < 2 ^ 64 →
      ∃ cas b2, Agent.Increment b key delta initial expiry = .ok ((v + delta, cas), b2) ∧
        cas ≠ 0 ∧ (Agent.Get b2 key).map Prod.fst = .ok (.counter (v + delta))) ∧
    (∀ it v, b.lookup key = some it → it.value = .counter v →
      ∃ cas b2, Agent.Decrement b key delta initial expiry =
          .ok ((if delta ≤ v then v - delta else 0, cas), b2) ∧
        cas ≠ 0 ∧
        (Agent.Get b2 key).map Prod.fst = .ok (.counter (if delta ≤ v then v - delta else 0))) ∧
    (∃ c1 c2 c3, basicCountersRun b key = .ok [(11, c1), (16, c2), (13, c3)] ∧
      c1 ≠ 0 ∧ c2 ≠ 0 ∧ c3 ≠ 0) := by
  have hd2 : uint64 delta = delta := Nat.mod_eq_of_lt hd
  have hi2 : uint64 initial = initial := Nat.mod_eq_of_lt hi
  refine ⟨?_, ?_, ?_, basicCountersRun_eq b key⟩
  · intro h
    have e := counterOp_absent b (fun v => uint64 (v + uint64 delta)) key initial expiry h
    have l := lookup_store b key (.counter (uint64 initial)) 0 _ (deadline_later b expiry)
    rw [hi2] at e l
    exact ⟨_, _, e, freshCas_ne_zero b, by simp only [Agent.Get, l]; rfl⟩
  · intro it v h hv hsum
    have e := counterOp_counter b (fun v => uint64 (v + uint64 delta)) key initial expiry it v h hv
    have l := lookup_store b key (.counter (uint64 (v + uint64 delta))) it.flags it.expiresAt
      (lookup_live b key it h)
    have hs : uint64 (v + uint64 delta) = v + delta := by
      rw [hd2]; exact Nat.mod_eq_of_lt hsum
    simp only [hs] at e l
    exact ⟨_, _, e, freshCas_ne_zero b, by simp only [Agent.Get, l]; rfl⟩
  · intro it v h hv
    have e := counterOp_counter b (fun v => if v < uint64 delta then 0 else v - uint64 delta)
      key initial expiry it v h hv
    have l := lookup_store b key
      (.counter ((fun v => if v < uint64 delta then 0 else v - uint64 delta) v))
      it.flags it.expiresAt (lookup_live b key it h)
    have hs : (if v < uint64 delta then 0 else v - uint64 delta) =
        (if delta ≤ v then v - delta else 0) := by
      rw [hd2]; split <;> split <;> omega
    simp only [hs] at e l
    exact ⟨_, _, e, freshCas_ne_zero b, by simp only [Agent.Get, l]; rfl⟩

/-- The counter operations on the key of `TestBasicCounters` in an empty bucket. -/
theorem counter_operations_witness :
    (5 < 2 ^ 64 ∧ 11 < 2 ^ 64) ∧
    emptyBucket.lookup (bytesOf "testCounters") = none ∧
    (∃ cas b2, Agent.Increment emptyBucket (bytesOf "testCounters") 5 11 0 =
        .ok ((11, cas), b2) ∧ cas ≠ 0 ∧
      (Agent.Get b2 (bytesOf "testCounters")).map Prod.fst = .ok (.counter 11)) ∧
    (∃ cas b2,
      Agent.Increment (emptyBucket.store (bytesOf "testCounters") (.counter 11) 0 none).2
          (bytesOf "testCounters") 5 22 0 = .ok ((11 + 5, cas), b2) ∧ cas ≠ 0 ∧
      (Agent.Get b2 (bytesOf "testCounters")).map Prod.fst = .ok (.counter (11 + 5))) ∧
    (∃ c1 c2 c3, basicCountersRun emptyBucket (bytesOf "testCounters") =
        .ok [(11, c1), (16, c2), (13, c3)] ∧ c1 ≠ 0 ∧ c2 ≠ 0 ∧ c3 ≠ 0) :=
  ⟨by decide, by decide,
   (counter_operations emptyBucket (bytesOf "testCounters") 5 11 0 (by decide) (by decide)).1
     (by decide),
   (counter_operations (emptyBucket.store (bytesOf "testCounters") (.counter 11) 0 none).2
     (bytesOf "testCounters") 5 22 0 (by decide) (by decide)).2.1
     { value := .counter 11, flags := 0, cas := 1, expiresAt := none } 11
     (by decide) rfl (by decide),
   (counter_operations emptyBucket (bytesOf "testCounters") 5 11 0
     (by decide) (by decide)).2.2.2⟩

/-- C6 as stated fails: a counter holding 3 decremented by 5 yields 0, which is not
`3 - 5`. -/
theorem decrement_below_zero_is_zero :
    seededDecrement emptyBucket (bytesOf "testCounters") 3 5 = .ok 0 ∧
    ((0 : Nat) : Int) ≠ (3 : Int) - 5 := by
  decide

/-- An adjoin on existing raw bytes stores the new bytes under a new CAS. -/
theorem adjoin_eq (b : Bucket) (f : List UInt8 → List UInt8) (key : List UInt8)
    (it : Item) (old : List UInt8) (h : b.lookup key = some it) (hv : it.value = .bytes old) :
    b.adjoin f key = .ok (b.freshCas, (b.store key (.bytes (f old)) it.flags it.expiresAt).2) := by
  simp [Bucket.adjoin, h, hv, Bucket.store]

/-- The calls of `TestBasicAdjoins` leave `prepended ++ first ++ appended`, and the final
`Get` sees the CAS of the prepend. -/
theorem basicAdjoinsRun_eq (b : Bucket) (key first appended prepended : List UInt8) :
    ∃ c1 c2 c3, basicAdjoinsRun b key first appended prepended =
        .ok (c1, c2, .bytes (prepended ++ (first ++ appended)), c3) ∧
      c1 ≠ 0 ∧ c2 ≠ 0 ∧ c3 ≠ 0 ∧ c3 = c2 := by
  unfold basicAdjoinsRun
  simp only [Agent.Set, bucketAfter, Agent.Append, Agent.Prepend]
  have l0 := lookup_store b key (.bytes first) 0 _ (deadline_later b 0)
  generalize hb0 : (b.store key (.bytes first) 0 (b.deadline 0)).2 = b0 at l0 ⊢
  have e1 := adjoin_eq b0 (fun old => old ++ appended) key _ first l0 rfl
  have l1 := lookup_store b0 key (.bytes (first ++ appended)) 0 (b.deadline 0)
    (by rw [← hb0]; exact deadline_later b 0)
  generalize hb1 : (b0.store key (.bytes (first ++ appended)) 0 (b.deadline 0)).2 = b1
    at e1 l1
  have e2 := adjoin_eq b1 (fun old => prepended ++ old) key _ (first ++ appended) l1 rfl
  have l2 := lookup_store b1 key (.bytes (prepended ++ (first ++ appended))) 0 (b.deadline 0)
    (by rw [← hb1, ← hb0]; exact deadline_later b 0)
  generalize hb2 : (b1.store key (.bytes (prepended ++ (first ++ appended))) 0
    (b.deadline 0)).2 = b2 at e2 l2
  refine ⟨b0.freshCas, b1.freshCas, b1.freshCas, ?_, freshCas_ne_zero _, freshCas_ne_zero _,
    freshCas_ne_zero _, rfl⟩
  simp only [e1, bind, Except.bind, e2, Agent.Get, l2, pure, Except.pure]

/-- C8 (amended): append puts the bytes after the stored value and prepend puts them
before it, byte for byte, under a new non-zero CAS; and on a key set to "there",
`Append(" Frank!")` (with the leading space, as in `TestBasicAdjoins`) followed by
`Prepend("Hello ")` leaves exactly "Hello there Frank!". -/
theorem adjoin_operations (b : Bucket) (key value : List UInt8) :
    (∀ it old, b.lookup key = some it → it.value = .bytes old →
      ∃ cas b2, Agent.Append b key value = .ok (cas, b2) ∧ cas ≠ 0 ∧
        Agent.Get b2 key = .ok (.bytes (old ++ value), it.flags, cas)) ∧
    (∀ it old, b.lookup key = some it → it.value = .bytes old →
      ∃ cas b2, Agent.Prepend b key value = .ok (cas, b2) ∧ cas ≠ 0 ∧
        Agent.Get b2 key = .ok (.bytes (value ++ old), it.flags, cas)) ∧
    (∃ c1 c2 c3, basicAdjoinsRun b key (bytesOf "there") (bytesOf " Frank!") (bytesOf "Hello ") =
        .ok (c1, c2, .bytes (bytesOf "Hello there Frank!"), c3) ∧
      c1 ≠ 0 ∧ c2 ≠ 0 ∧ c3 ≠ 0) := by
  refine ⟨?_, ?_, ?_⟩
  · intro it old h hv
    have e := adjoin_eq b (fun old => old ++ value) key it old h hv
    have l := lookup_store b key (.bytes (old ++ value)) it.flags it.expiresAt
      (lookup_live b key it h)
    exact ⟨_, _, e, freshCas_ne_zero b, by simp only [Agent.Get, l]⟩
  · intro it old h hv
    have e := adjoin_eq b (fun old => value ++ old) key it old h hv
    have l := lookup_store b key (.bytes (value ++ old)) it.flags it.expiresAt
      (lookup_live b key it h)
    exact ⟨_, _, e, freshCas_ne_zero b, by simp only [Agent.Get, l]⟩
  · obtain ⟨c1, c2, c3, h, h1, h2, h3, _⟩ :=
      basicAdjoinsRun_eq b key (bytesOf "there") (bytesOf " Frank!") (bytesOf "Hello ")
    have hb : bytesOf "Hello " ++ (bytesOf "there" ++ bytesOf " Frank!") =
        bytesOf "Hello there Frank!" := by decide
    rw [hb] at h
    exact ⟨c1, c2, c3, h, h1, h2, h3⟩

/-- The adjoins of `TestBasicAdjoins` in an empty bucket. -/
theorem adjoin_operations_witness :
    (∃ cas b2,
      Agent.Append
          (bucketAfter emptyBucket
            (Agent.Set emptyBucket (bytesOf "testAdjoins") (bytesOf "there") 0 0))
          (bytesOf "testAdjoins") (bytesOf " Frank!") = .ok (cas, b2) ∧
        cas ≠ 0 ∧
        Agent.Get b2 (bytesOf "testAdjoins") =
          .ok (.bytes (bytesOf "there" ++ bytesOf " Frank!"), 0, cas)) ∧
    (∃ c1 c2 c3, basicAdjoinsRun emptyBucket (bytesOf "testAdjoins")
        (bytesOf "there") (bytesOf " Frank!") (bytesOf "Hello ") =
        .ok (c1, c2, .bytes (bytesOf "Hello there Frank!"), c3) ∧
      c1 ≠ 0 ∧ c2 ≠ 0 ∧ c3 ≠ 0) :=
  ⟨(adjoin_operations
      (bucketAfter emptyBucket
        (Agent.Set emptyBucket (bytesOf "testAdjoins") (bytesOf "there") 0 0))
      (bytesOf "testAdjoins") (bytesOf " Frank!")).1
      { value := .bytes (bytesOf "there"), flags := 0, cas := 1, expiresAt := none }
      (bytesOf "there") (by decide) rfl,
   (adjoin_operations emptyBucket (bytesOf "testAdjoins") (bytesOf " Frank!")).2.2⟩

/-- C8 as stated fails: on a key holding "there", `Append("Frank!")` followed by
`Prepend("Hello ")` leaves "Hello thereFrank!", not "Hello there Frank!". -/
theorem adjoin_without_space :
    (basicAdjoinsRun emptyBucket (bytesOf "testAdjoins")
        (bytesOf "there") (bytesOf "Frank!") (bytesOf "Hello ")).map (fun r => r.2.2.1) =
      .ok (.bytes (bytesOf "Hello thereFrank!")) ∧
    bytesOf "Hello thereFrank!" ≠ bytesOf "Hello there Frank!" := by
  decide

/-! ## saslAuthFn -/

/-- Writing a zero into a slice of zeros changes nothing. -/
theorem set_replicate_zero (n i : Nat) : (List.replicate n (0 : UInt8)).set i 0 = List.replicate n 0 := by
  apply List.ext_getElem?
  intro j
  simp only [List.getElem?_set, List.getElem?_replicate, List.length_replicate]
  split <;> simp_all

/-- Copying into the zeros that follow a prefix. -/
theorem copyInto_replicate (b : Nat) (pre src : List UInt8) :
    copyInto (pre ++ List.replicate (src.length + b) 0) pre.length src =
      pre ++ src ++ List.replicate b 0 := by
  simp [copyInto, List.take_append_eq_append_take, List.drop_append_eq_append_drop]

/-- Writing a zero right after a prefix that zeros follow changes nothing. -/
theorem set_after_prefix (b : Nat) (pre : List UInt8) :
    (pre ++ List.replicate (b + 1) 0).set pre.length 0 = pre ++ List.replicate (b + 1) 0 := by
  rw [List.set_append_right _ _ (Nat.le_refl _), Nat.sub_self, set_replicate_zero]

/-- The PLAIN payload is a zero byte, the bucket, a zero byte and the password. -/
theorem saslAuthData_eq (bucket password : List UInt8) :
    saslAuthData bucket password = 0 :: bucket ++ 0 :: password := by
  simp only [saslAuthData, makeBytes, set_replicate_zero]
  have h1 : List.replicate (1 + bucket.length + 1 + password.length) (0 : UInt8) =
      [0] ++ List.replicate (bucket.length + (password.length + 1)) 0 := by
    rw [show 1 + bucket.length + 1 + password.length =
      1 + (bucket.length + (password.length + 1)) by omega, List.replicate_add]
    rfl
  have h2 := copyInto_replicate (password.length + 1) [0] bucket
  simp only [List.length_singleton] at h2
  rw [h1, h2]
  have h3 := set_after_prefix password.length ([0] ++ bucket)
  simp only [List.length_append, List.length_singleton] at h3
  rw [h3]
  have h4 : [0] ++ bucket ++ List.replicate (password.length + 1) (0 : UInt8) =
      ([0] ++ bucket ++ [0]) ++ List.replicate (password.length + 0) 0 := by
    rw [Nat.add_comm password.length 1, List.replicate_add]
    simp
  have h5 := copyInto_replicate 0 ([0] ++ bucket ++ [0]) password
  simp only [List.length_append, List.length_singleton] at h5
  rw [h4, h5]
  simp

/-- C15: for every bucket name and password the payload built by `saslAuthFn` is the byte
0x00, the bucket bytes, 0x00 and the password bytes, of length
`2 + len(bucket) + len(password)`; it is passed to `ExecSaslAuth` with the mechanism
"PLAIN" and the given deadline, and the error of that call is what `saslAuthFn` returns. -/
theorem saslAuthFn_plain (bucket password : List UInt8) (srv : AuthClient) (deadline : Nat) :
    saslAuthData bucket password = [0] ++ bucket ++ [0] ++ password ∧
    (saslAuthData bucket password).length = 2 + bucket.length + password.length ∧
    saslAuthFn bucket password srv deadline =
      (srv.ExecSaslAuth (bytesOf "PLAIN") ([0] ++ bucket ++ [0] ++ password) deadline).2 := by
  have h := saslAuthData_eq bucket password
  refine ⟨by rw [h]; simp, by rw [h]; simp; omega, ?_⟩
  unfold saslAuthFn
  rw [h]
  simp

/-- Two byte strings without a zero byte that are followed by a zero byte and a rest are
equal, and so are the rests, as soon as the whole sequences are equal. -/
theorem split_at_first_zero (b1 : List UInt8) :
    ∀ (b2 p1 p2 : List UInt8), (0 : UInt8) ∉ b1 → (0 : UInt8) ∉ b2 →
      b1 ++ 0 :: p1 = b2 ++ 0 :: p2 → b1 = b2 ∧ p1 = p2 := by
  induction b1 with
  | nil =>
    intro b2 p1 p2 _ h2 h
    cases b2 with
    | nil => exact ⟨rfl, by simpa using h⟩
    | cons x t =>
      simp only [List.nil_append, List.cons_append, List.cons.injEq] at h
      exact absurd (h.1 ▸ List.mem_cons_self _ _) h2
  | cons a t ih =>
    intro b2 p1 p2 h1 h2 h
    cases b2 with
    | nil =>
      simp only [List.nil_append, List.cons_append, List.cons.injEq] at h
      exact absurd (h.1 ▸ List.mem_cons_self _ _) h1
    | cons x u =>
      simp only [List.cons_append, List.cons.injEq] at h
      obtain ⟨hax, hrest⟩ := h
      have := ih u p1 p2 (fun hm => h1 (List.mem_cons_of_mem _ hm))
        (fun hm => h2 (List.mem_cons_of_mem _ hm)) hrest
      exact ⟨by rw [hax, this.1], this.2⟩

/-- C21: for bucket names without a 0x00 byte and any passwords, equal PLAIN payloads of
`saslAuthFn` imply equal bucket names and equal passwords; the condition on the bucket
names is needed: the bucket 0x00 with the empty password and the empty bucket with the
password 0x00 have the same payload. -/
theorem saslAuthData_injective :
    (∀ b1 b2 p1 p2 : List UInt8, (0 : UInt8) ∉ b1 → (0 : UInt8) ∉ b2 →
      saslAuthData b1 p1 = saslAuthData b2 p2 → b1 = b2 ∧ p1 = p2) ∧
    (saslAuthData [0] [] = saslAuthData [] [0] ∧ ([0] : List UInt8) ≠ []) := by
  refine ⟨?_, by decide⟩
  intro b1 b2 p1 p2 h1 h2 h
  rw [saslAuthData_eq, saslAuthData_eq] at h
  simp only [List.cons_append, List.cons.injEq, true_and] at h
  exact split_at_first_zero b1 b2 p1 p2 h1 h2 h

/-- The payloads of the buckets "default" and "memd" of the tests. -/
theorem saslAuthData_injective_witness :
    ((0 : UInt8) ∉ bytesOf "default" ∧ (0 : UInt8) ∉ bytesOf "memd") ∧
    saslAuthData (bytesOf "default") (bytesOf "") ≠ saslAuthData (bytesOf "memd") (bytesOf "") ∧
    (saslAuthData (bytesOf "default") (bytesOf "pw") =
        saslAuthData (bytesOf "default") (bytesOf "pw") →
      bytesOf "default" = bytesOf "default" ∧ bytesOf "pw" = bytesOf "pw") :=
  ⟨by decide,
   fun h => absurd (saslAuthData_injective.1 _ _ _ _ (by decide) (by decide) h).1 (by decide),
   saslAuthData_injective.1 (bytesOf "default") (bytesOf "default") (bytesOf "pw")
     (bytesOf "pw") (by decide) (by decide)⟩

end Gocbcore

namespace Server

/-! ## handler -/

/-- The entries after one pass of the inner loop. -/
theorem addReps_lookup (acc : AList (fun _ : String => Int)) (k w : String) (v : Int) :
    (addReps acc k v).lookup w =
      if w = k then
        some (if (acc.lookup k).getD 0 = 0 then v
              else Gocbcore.wrapInt ((acc.lookup k).getD 0 + v))
      else acc.lookup w := by
  unfold addReps repsOf
  by_cases hw : w = k
  · subst hw
    simp only [if_true]
    split <;> simp [AList.lookup_insert]
  · simp only [hw, if_false]
    split <;> simp [AList.lookup_insert_ne hw]

/-- The entries after the inner loop. -/
theorem foldl_addReps_lookup (L : List (Sigma (fun _ : String => Int))) :
    ∀ (acc : AList (fun _ : String => Int)), L.NodupKeys → ∀ w : String,
      (L.foldl (fun acc e => addReps acc e.1 e.2) acc).lookup w =
        match L.dlookup w with
        | none => acc.lookup w
        | some r =>
          some (if (acc.lookup w).getD 0 = 0 then r
                else Gocbcore.wrapInt ((acc.lookup w).getD 0 + r)) := by
  induction L with
  | nil => intro acc _ w; simp
  | cons x t ih =>
    intro acc hnd w
    obtain ⟨k, v⟩ := x
    rw [List.nodupKeys_cons] at hnd
    obtain ⟨hk, ht⟩ := hnd
    simp only [List.foldl_cons]
    rw [ih _ ht w, addReps_lookup]
    by_cases hw : w = k
    · subst hw
      have hnone : t.dlookup w = none := List.dlookup_eq_none.2 hk
      simp [hnone, List.dlookup_cons_eq]
    · rw [List.dlookup_cons_ne t ⟨k, v⟩ hw]
      simp only [hw, if_false]

/-- One pass of the outer loop on a non-nil map. -/
theorem mergeExercise_some (m : AList (fun _ : String => GoMap Int)) (e : String)
    (exer : GoMap Int) :
    mergeExercise (some m) e exer =
      .ok (some (m.insert e (mergeInner (exerciseOf (some m) e) exer))) := by
  unfold mergeExercise mergeInner
  cases h : exerciseOf (some m) e with
  | none => simp
  | some inner => simp

/-- The outer loop on a non-nil map does not panic; its entries afterwards. -/
theorem foldlM_mergeExercise (L : List (Sigma (fun _ : String => GoMap Int))) :
    ∀ (m : AList (fun _ : String => GoMap Int)), L.NodupKeys →
      ∃ m2 : AList (fun _ : String => GoMap Int),
        L.foldlM (fun acc e => mergeExercise acc e.1 e.2) (some m) = .ok (some m2) ∧
        ∀ e : String, m2.lookup e =
          match L.dlookup e with
          | none => m.lookup e
          | some exer => some (mergeInner (exerciseOf (some m) e) exer) := by
  induction L with
  | nil => intro m _; exact ⟨m, rfl, fun e => by simp⟩
  | cons x t ih =>
    intro m hnd
    obtain ⟨k, v⟩ := x
    rw [List.nodupKeys_cons] at hnd
    obtain ⟨hk, ht⟩ := hnd
    obtain ⟨m2, hf, hl⟩ := ih (m.insert k (mergeInner (exerciseOf (some m) k) v)) ht
    refine ⟨m2, ?_, ?_⟩
    · rw [List.foldlM_cons, mergeExercise_some]
      exact hf
    · intro e
      rw [hl e]
      by_cases he : e = k
      · subst he
        have hnone : t.dlookup e = none := List.dlookup_eq_none.2 hk
        simp [hnone, List.dlookup_cons_eq, AList.lookup_insert]
      · rw [List.dlookup_cons_ne t ⟨k, v⟩ he]
        simp only [exerciseOf, AList.lookup_insert_ne he]

/-- The exercises after the merge into a non-nil map. -/
theorem mergeExercises_some (m : AList (fun _ : String => GoMap Int))
    (incoming : GoMap (GoMap Int)) :
    ∃ m2 : AList (fun _ : String => GoMap Int),
      mergeExercises (some m) incoming = .ok (some m2) ∧
      ∀ e : String, exerciseOf (some m2) e =
        match exerciseOf incoming e with
        | none => exerciseOf (some m) e
        | some b => mergeInner (exerciseOf (some m) e) (some b) := by
  cases incoming with
  | none => exact ⟨m, rfl, fun e => rfl⟩
  | some a =>
    obtain ⟨m2, hf, hl⟩ := foldlM_mergeExercise a.entries m a.nodupKeys
    refine ⟨m2, hf, ?_⟩
    intro e
    have hle := hl e
    simp only [exerciseOf, AList.lookup] at hle ⊢
    rw [hle]
    cases hd : List.dlookup e a.entries with
    | none => simp
    | some exer =>
      cases exer with
      | none =>
        generalize (List.dlookup e m.entries).join = old
        cases old <;> rfl
      | some b => rfl

/-- The merge into a nil map panics exactly when there is something to merge. -/
theorem mergeExercises_none (incoming : GoMap (GoMap Int)) :
    (rangeOf incoming = [] → mergeExercises none incoming = .ok none) ∧
    (rangeOf incoming ≠ [] →
      mergeExercises none incoming = .error "assignment to entry in nil map") := by
  unfold mergeExercises
  cases h : rangeOf incoming with
  | nil => exact ⟨fun _ => rfl, fun hne => absurd rfl hne⟩
  | cons x t =>
    refine ⟨fun hc => (by cases hc), fun _ => ?_⟩
    rw [List.foldlM_cons]
    rfl

/-- The entries of an exercise after an incoming non-nil map was merged into it. -/
theorem mergeInner_lookup (old : GoMap Int) (b : AList (fun _ : String => Int)) (w : String) :
    ∃ r2 : AList (fun _ : String => Int), mergeInner old (some b) = some r2 ∧
      r2.lookup w =
        match b.lookup w with
        | none => old.bind (fun inner => inner.lookup w)
        | some r =>
          some (if repsOf old w = 0 then r else Gocbcore.wrapInt (repsOf old w + r)) := by
  cases old with
  | none =>
    refine ⟨b, rfl, ?_⟩
    cases b.lookup w <;> simp [repsOf]
  | some inner =>
    refine ⟨_, rfl, ?_⟩
    simp only [rangeOf]
    rw [foldl_addReps_lookup b.entries inner b.nodupKeys w]
    rfl

/-- Adding 0 to an `int`. -/
theorem wrapInt_add_zero (x : Int) (h : Gocbcore.inInt x) : Gocbcore.wrapInt (x + 0) = x := by
  unfold Gocbcore.inInt at h
  unfold Gocbcore.wrapInt
  omega

/-- Adding an `int` to 0. -/
theorem wrapInt_zero_add (x : Int) (h : Gocbcore.inInt x) : Gocbcore.wrapInt (0 + x) = x := by
  unfold Gocbcore.inInt at h
  unfold Gocbcore.wrapInt
  omega

/-- One entry of one exercise after the merge. -/
theorem merged_entry (old inc res : GoMap Int) (w : String)
    (hres : res = match inc with
      | none => old
      | some b => mergeInner old (some b))
    (ho : Gocbcore.inInt (repsOf old w)) (hi : Gocbcore.inInt (repsOf inc w)) :
    repsOf res w = Gocbcore.wrapInt (repsOf old w + repsOf inc w) ∧
    ((res.bind (fun a => a.lookup w)).isSome =
      ((old.bind (fun a => a.lookup w)).isSome || (inc.bind (fun a => a.lookup w)).isSome)) ∧
    ((inc.bind (fun a => a.lookup w)).isSome = false → repsOf res w = repsOf old w) := by
  cases inc with
  | none =>
    simp only at hres
    subst hres
    refine ⟨?_, by simp, fun _ => rfl⟩
    simp only [repsOf]
    exact (wrapInt_add_zero _ ho).symm
  | some b =>
    simp only at hres
    obtain ⟨r2, hr2, hl⟩ := mergeInner_lookup old b w
    rw [hr2] at hres
    subst hres
    cases hb : b.lookup w with
    | none =>
      rw [hb] at hl
      simp only at hl
      have e1 : repsOf (some r2) w = repsOf old w := by
        cases old with
        | none => simp [repsOf, hl]
        | some inner => simp [repsOf, hl]
      refine ⟨?_, ?_, fun _ => e1⟩
      · rw [e1]
        simp only [repsOf, hb, Option.getD_none]
        exact (wrapInt_add_zero _ ho).symm
      · simp [hl, hb]
    | some r =>
      rw [hb] at hl
      simp only at hl
      have hr : repsOf (some b) w = r := by simp [repsOf, hb]
      rw [hr] at hi
      refine ⟨?_, ?_, ?_⟩
      · simp only [repsOf, hl, hb, Option.getD_some]
        split
        · rename_i h0
          have h0b : repsOf old w = 0 := h0
          simp only [repsOf] at h0b
          rw [h0b]
          exact (wrapInt_zero_add r hi).symm
        · rfl
      · simp [hl, hb]
      · simp [hb]

/-- C16: on the merge path (the lookup of today's key returns a document whose exercise
map is not nil), `handler` upserts under today's key a document in which, for every
exercise `e` and weight `w`, the repetitions are `stored[e][w] + incoming[e][w]` in Go
`int` arithmetic, a missing entry counting as 0; its (exercise, weight) entries are those
of the stored and of the incoming document together; and what the incoming document has
no entry for is unchanged. -/
theorem handler_merge_sums (bucket : Bucket) (today : String) (body stored : Document)
    (m : AList (fun _ : String => GoMap Int))
    (hget : bucket.Get today = .ok stored) (hnn : stored.Exercises = some m)
    (hs : intValued stored.Exercises) (hb : intValued body.Exercises) :
    ∃ doc : Document, handler bucket today body = .ok [(today, doc)] ∧
      doc.InsertionDate = stored.InsertionDate ∧ doc.Date = stored.Date ∧
      (∀ e w : String, reps doc.Exercises e w =
        Gocbcore.wrapInt (reps stored.Exercises e w + reps body.Exercises e w)) ∧
      (∀ e w : String, hasEntry doc.Exercises e w =
        (hasEntry stored.Exercises e w || hasEntry body.Exercises e w)) ∧
      (∀ e w : String, hasEntry body.Exercises e w = false →
        reps doc.Exercises e w = reps stored.Exercises e w) := by
  obtain ⟨m2, hm, he⟩ := mergeExercises_some m body.Exercises
  refine ⟨{ stored with Exercises := some m2 }, ?_, rfl, rfl, ?_⟩
  · simp only [handler, hget, hnn, hm]
  · have key : ∀ e w : String, _ := fun e w =>
      merged_entry (exerciseOf stored.Exercises e) (exerciseOf body.Exercises e)
        (exerciseOf (some m2) e) w (by rw [he e, hnn]) (hs e w) (hb e w)
    have hE : ∀ (ex : GoMap (GoMap Int)) (e w : String),
        hasEntry ex e w = ((exerciseOf ex e).bind (fun a => a.lookup w)).isSome := by
      intro ex e w
      unfold hasEntry
      cases exerciseOf ex e <;> rfl
    refine ⟨fun e w => (key e w).1, fun e w => ?_, fun e w h => ?_⟩
    · rw [hE, hE, hE]; exact (key e w).2.1
    · rw [hE] at h; exact (key e w).2.2 h

/-- The test `intValuedCheck` is sound. -/
theorem intValued_of_check (ex : GoMap (GoMap Int)) (h : intValuedCheck ex = true) :
    intValued ex := by
  intro e w
  unfold reps repsOf
  cases hx : exerciseOf ex e with
  | none => simp [Gocbcore.inInt]
  | some inner =>
    simp only
    cases hw : inner.lookup w with
    | none => simp [Gocbcore.inInt]
    | some r =>
      simp only [Option.getD_some]
      cases ex with
      | none => simp [exerciseOf] at hx
      | some m =>
        simp only [exerciseOf] at hx
        cases hm : m.lookup e with
        | none => rw [hm] at hx; cases hx
        | some g =>
          rw [hm] at hx
          have hg : g = some inner := hx
          subst hg
          have h1 : (⟨e, some inner⟩ : Sigma (fun _ : String => GoMap Int)) ∈ m.entries :=
            AList.mem_lookup_iff.1 hm
          have h2 : (⟨w, r⟩ : Sigma (fun _ : String => Int)) ∈ inner.entries :=
            AList.mem_lookup_iff.1 hw
          simp only [intValuedCheck, rangeOf, List.all_eq_true] at h
          have h3 := h _ h1 _ h2
          simp only [Bool.and_eq_true, decide_eq_true_eq] at h3
          exact h3

/-- The merge of `newDoc` into `benchDoc`. -/
theorem handler_merge_sums_witness :
    storedBucket.Get "2018-01-01" = .ok benchDoc ∧
    ∃ doc : Document, handler storedBucket "2018-01-01" newDoc = .ok [("2018-01-01", doc)] ∧
      doc.InsertionDate = benchDoc.InsertionDate ∧ doc.Date = benchDoc.Date ∧
      (∀ e w : String, reps doc.Exercises e w =
        Gocbcore.wrapInt (reps benchDoc.Exercises e w + reps newDoc.Exercises e w)) ∧
      (∀ e w : String, hasEntry doc.Exercises e w =
        (hasEntry benchDoc.Exercises e w || hasEntry newDoc.Exercises e w)) ∧
      (∀ e w : String, hasEntry newDoc.Exercises e w = false →
        reps doc.Exercises e w = reps benchDoc.Exercises e w) :=
  ⟨rfl,
   handler_merge_sums storedBucket "2018-01-01" newDoc benchDoc
     (goMapOf [("bench", some (goMapOf [("135", 10), ("185", 5)])), ("squat", none)])
     rfl rfl (intValued_of_check _ (by decide)) (intValued_of_check _ (by decide))⟩

/-- C17: when the lookup of today's key succeeds, `handler` panics, with an assignment to
an entry of a nil map and without any upsert, exactly when the exercise map of the stored
document is nil and the incoming document has at least one exercise; in every other case
it completes and upserts one document. -/
theorem handler_merge_panics_iff (bucket : Bucket) (today : String) (body thing : Document)
    (hget : bucket.Get today = .ok thing) :
    ((∃ msg, handler bucket today body = .error msg) ↔
      (thing.Exercises = none ∧ rangeOf body.Exercises ≠ [])) ∧
    (∀ msg, handler bucket today body = .error msg →
      msg = "assignment to entry in nil map") ∧
    (¬ (thing.Exercises = none ∧ rangeOf body.Exercises ≠ []) →
      ∃ doc : Document, handler bucket today body = .ok [(today, doc)]) := by
  cases hex : thing.Exercises with
  | none =>
    by_cases hr : rangeOf body.Exercises = []
    · have hm := (mergeExercises_none body.Exercises).1 hr
      have hh : handler bucket today body = .ok [(today, { thing with Exercises := none })] := by
        simp only [handler, hget, hex, hm]
      refine ⟨⟨?_, fun h => absurd hr h.2⟩, ?_, fun _ => ⟨_, hh⟩⟩
      · rintro ⟨msg, h⟩; rw [hh] at h; cases h
      · intro msg h; rw [hh] at h; cases h
    · have hm := (mergeExercises_none body.Exercises).2 hr
      have hh : handler bucket today body = .error "assignment to entry in nil map" := by
        simp only [handler, hget, hex, hm]
      refine ⟨⟨fun _ => ⟨rfl, hr⟩, fun _ => ⟨_, hh⟩⟩, ?_, fun h => absurd ⟨rfl, hr⟩ h⟩
      intro msg h; rw [hh] at h; exact (Except.error.inj h).symm
  | some m =>
    obtain ⟨m2, hm, _⟩ := mergeExercises_some m body.Exercises
    have hh : handler bucket today body = .ok [(today, { thing with Exercises := some m2 })] := by
      simp only [handler, hget, hex, hm]
    refine ⟨⟨?_, fun h => by cases h.1⟩, ?_, fun _ => ⟨_, hh⟩⟩
    · rintro ⟨msg, h⟩; rw [hh] at h; cases h
    · intro msg h; rw [hh] at h; cases h

/-- Upserts of documents under their own dates keep `keyedByDate`. -/
theorem applyUpserts_keyed (ups : List (String × Document)) :
    ∀ store : Store, keyedByDate store → (∀ u ∈ ups, u.2.InsertionDate = u.1) →
      keyedByDate (applyUpserts store ups) := by
  induction ups with
  | nil => intro store h _; exact h
  | cons u t ih =>
    intro store h hu
    unfold applyUpserts
    rw [List.foldl_cons]
    apply ih
    · intro k d hk
      simp only [Store.upsert] at hk
      split at hk
      · rename_i heq
        cases hk
        rw [heq]
        exact hu u (List.mem_cons_self _ _)
      · exact h k d hk
    · intro v hv
      exact hu v (List.mem_cons_of_mem _ hv)

/-- C18: if every document of the bucket is stored under its own `InsertionDate`, and a
successful lookup returns the stored document, then `handler` makes exactly one upsert when
it completes, every upsert is under today's key with a document whose `InsertionDate` is
today, and the bucket is still keyed by date after any of these upserts that succeed, on
the first-insert path and on the merge path alike. -/
theorem handler_keeps_dates (store : Store) (bucket : Bucket) (today : String) (body : Document)
    (hinv : keyedByDate store)
    (hread : ∀ d, bucket.Get today = .ok d → store today = some d) :
    (∀ ups, handler bucket today body = .ok ups →
      ups.length = 1 ∧ (∀ u ∈ ups, u.1 = today ∧ u.2.InsertionDate = today) ∧
      ∀ done : List (String × Document), done.Sublist ups →
        keyedByDate (applyUpserts store done)) := by
  intro ups h
  have hall : ups.length = 1 ∧ ∀ u ∈ ups, u.1 = today ∧ u.2.InsertionDate = today := by
    cases hg : bucket.Get today with
    | error err =>
      simp only [handler, hg] at h
      cases h
      simp
    | ok thing =>
      have hd : thing.InsertionDate = today := hinv today thing (hread thing hg)
      simp only [handler, hg] at h
      cases hm : mergeExercises thing.Exercises body.Exercises with
      | error e => rw [hm] at h; cases h
      | ok ex =>
        rw [hm] at h
        cases h
        simp [hd]
  refine ⟨hall.1, hall.2, ?_⟩
  intro done hsub
  apply applyUpserts_keyed done store hinv
  intro u hu
  obtain ⟨h1, h2⟩ := hall.2 u (hsub.subset hu)
  rw [h1, h2]

/-- C19: when the lookup of today's key fails, with whatever error, `handler` makes exactly
one upsert, under today's key, of the incoming document with `InsertionDate` set to today:
`Date` and `Exercises` are as sent, the `InsertionDate` sent is ignored, and nothing stored
is merged in. -/
theorem handler_first_insert (bucket : Bucket) (today : String) (body : Document)
    (err : String) (hget : bucket.Get today = .error err) :
    handler bucket today body =
      .ok [(today, { InsertionDate := today, Date := body.Date,
                     Exercises := body.Exercises })] := by
  simp only [handler, hget]

/-- The merge of `newDoc` into `nilDoc` panics; into `benchDoc` it does not. -/
theorem handler_merge_panics_iff_witness :
    nilBucket.Get "2018-01-01" = .ok nilDoc ∧
    (nilDoc.Exercises = none ∧ rangeOf newDoc.Exercises ≠ []) ∧
    (∃ msg, handler nilBucket "2018-01-01" newDoc = .error msg) ∧
    (∃ doc : Document, handler storedBucket "2018-01-01" newDoc = .ok [("2018-01-01", doc)]) :=
  ⟨rfl, ⟨rfl, by decide⟩,
   (handler_merge_panics_iff nilBucket "2018-01-01" newDoc nilDoc rfl).1.2 ⟨rfl, by decide⟩,
   (handler_merge_panics_iff storedBucket "2018-01-01" newDoc benchDoc rfl).2.2
     (fun h => by cases h.1)⟩

/-- The store `storedStore` is keyed by date. -/
theorem storedStore_keyed : keyedByDate storedStore := by
  intro k d h
  unfold storedStore at h
  split at h
  · rename_i hk
    cases h
    rw [hk]
    rfl
  · cases h

/-- Both paths of `handler` on `storedStore`. -/
theorem handler_keeps_dates_witness :
    keyedByDate storedStore ∧
    (∃ ups, handler storedBucket "2018-01-01" newDoc = .ok ups ∧ ups.length = 1 ∧
      (∀ u ∈ ups, u.1 = "2018-01-01" ∧ u.2.InsertionDate = "2018-01-01") ∧
      keyedByDate (applyUpserts storedStore ups)) ∧
    (∃ ups, handler missBucket "2018-01-02" newDoc = .ok ups ∧ ups.length = 1 ∧
      (∀ u ∈ ups, u.1 = "2018-01-02" ∧ u.2.InsertionDate = "2018-01-02") ∧
      keyedByDate (applyUpserts storedStore ups)) := by
  have hread : ∀ d, storedBucket.Get "2018-01-01" = .ok d →
      storedStore "2018-01-01" = some d := by
    intro d h
    have e : storedBucket.Get "2018-01-01" = .ok benchDoc := rfl
    rw [e] at h
    rw [← Except.ok.inj h]
    rfl
  have hmiss : ∀ d, missBucket.Get "2018-01-02" = .ok d →
      storedStore "2018-01-02" = some d := by
    intro d h
    cases h
  obtain ⟨m2, hm, _⟩ := mergeExercises_some
    (goMapOf [("bench", some (goMapOf [("135", 10), ("185", 5)])), ("squat", none)])
    newDoc.Exercises
  have h1 : handler storedBucket "2018-01-01" newDoc =
      .ok [("2018-01-01", { benchDoc with Exercises := some m2 })] := by
    have e : storedBucket.Get "2018-01-01" = .ok benchDoc := rfl
    have e2 : benchDoc.Exercises =
      some (goMapOf [("bench", some (goMapOf [("135", 10), ("185", 5)])), ("squat", none)]) :=
      rfl
    simp only [handler, e, e2, hm]
  have h2 : handler missBucket "2018-01-02" newDoc =
      .ok [("2018-01-02", { newDoc with InsertionDate := "2018-01-02" })] := rfl
  have r1 := handler_keeps_dates storedStore storedBucket "2018-01-01" newDoc
    storedStore_keyed hread _ h1
  have r2 := handler_keeps_dates storedStore missBucket "2018-01-02" newDoc
    storedStore_keyed hmiss _ h2
  exact ⟨storedStore_keyed,
    ⟨_, h1, r1.1, r1.2.1, r1.2.2 _ (List.Sublist.refl _)⟩,
    ⟨_, h2, r2.1, r2.2.1, r2.2.2 _ (List.Sublist.refl _)⟩⟩

/-- The first insert of `newDoc`. -/
theorem handler_first_insert_witness :
    missBucket.Get "2018-01-02" = .error "not found" ∧
    handler missBucket "2018-01-02" newDoc =
      .ok [("2018-01-02", { InsertionDate := "2018-01-02", Date := newDoc.Date,
                            Exercises := newDoc.Exercises })] :=
  ⟨rfl, handler_first_insert missBucket "2018-01-02" newDoc "not found" rfl⟩

end Server
